import Mathlib

/-
Verification of the REFI-QDA interchange engine of QualCoder (qualcoder/refi.py)
against its natural-language specification.

The Python source is shallowly embedded: each relevant Python function is
translated into an executable Lean definition operating on explicit state
(the SQLite tables become Lean lists of row structures, the XML tree becomes
an inductive type, the uuid random stream becomes an explicit function
argument).  Machine behaviour that can raise (IndexError, KeyError,
TypeError) is modelled with Except / Option; unbounded Python while-loops
are modelled with an explicit fuel argument and an out-of-fuel signal, and
sufficiency of a concrete fuel bound is proved separately where termination
is at issue.
-/

namespace Refi

/-! ## Python string helpers -/

/-- Python slice `s[a:b]` for non-negative bounds (the only form the embedded
code uses: all positions handled here come from non-negative XML attributes
or from `uuid4().hex` offsets).  Python clamps both bounds to the length. -/
def pySlice (s : String) (a b : Nat) : String :=
  String.mk ((s.toList.drop a).take (b - a))

/-- Is `pat` a prefix of `l`? -/
def isPrefixList : List Char → List Char → Bool
  | [], _ => true
  | _ :: _, [] => false
  | p :: ps, c :: cs => p == c && isPrefixList ps cs

/-- Replace every (non-overlapping, left-to-right) occurrence of `pat` in
the character list.  `fuel` starts as the list length and never cuts the
scan short (each step consumes at least one character); it only makes the
recursion structural. -/
def replaceAux (pat rep : List Char) : Nat → List Char → List Char
  | _, [] => []
  | 0, l => l
  | fuel + 1, c :: cs =>
    if isPrefixList pat (c :: cs) then
      rep ++ replaceAux pat rep fuel (cs.drop (pat.length - 1))
    else c :: replaceAux pat rep fuel cs

/-- Python `str.replace` (replace every occurrence; an empty pattern is
never used by the embedded code and is passed through unchanged). -/
def pyReplace (s : String) (pat rep : String) : String :=
  if pat = "" then s
  else String.mk (replaceAux pat.toList rep.toList s.toList.length s.toList)

/-! ## Transcript sync-point resolution
(refi.py, `parse_transcript_with_codings_and_syncpoints`, lines 1105-1157)

A `SyncPoint` XML element carries a guid, a character `position` and a
`timeStamp`; a `TranscriptSelection` references two sync points by guid.
The source resolves each guid with one pass over the sync-point list:

    pos0 = 0
    pos1 = 0
    for s in syncpoints:
        if guid_pos0 == s['guid']:
            pos0 = int(s['pos']) + 1
        if guid_pos1 == s['guid']:
            pos1 = int(s['pos']) + 1

Note there is no `break`: a later entry with the same guid overwrites an
earlier one, and the stored position is incremented by one. -/

structure SyncPoint where
  guid : Option String
  pos : Nat
  timestamp : String
deriving Repr, DecidableEq

/-- The guid-resolution loop of the source, verbatim: a single fold over the
sync-point list starting from `(0, 0)`, each matching entry overwriting the
accumulator with its stored position plus one.  The guid attributes are
optional, as `element.get` yields (Python compares `None == None` as true);
`position` attributes are modelled already parsed, i.e. as the result of the
`int(s['pos'])` the source applies, the claims concerning only well-formed
non-negative position attributes. -/
def resolveSyncPositions (syncpoints : List SyncPoint)
    (guid_pos0 guid_pos1 : Option String) : Nat × Nat :=
  syncpoints.foldl
    (fun acc s =>
      ((if guid_pos0 == s.guid then s.pos + 1 else acc.1),
       (if guid_pos1 == s.guid then s.pos + 1 else acc.2)))
    (0, 0)

/-- Position of the first sync point whose guid matches, as the spec sentence
for the duplicate-guid edge case describes the behaviour ("only the first
match is taken").  Used solely to compare the spec reading with the code. -/
def firstMatchPos (syncpoints : List SyncPoint) (g : Option String) : Option Nat :=
  (syncpoints.find? (fun s => g == s.guid)).map (fun s => s.pos)

/-- Position of the last sync point whose guid matches: what the overwrite
loop of the source actually computes. -/
def lastMatchPos (syncpoints : List SyncPoint) (g : Option String) : Option Nat :=
  (syncpoints.reverse.find? (fun s => g == s.guid)).map (fun s => s.pos)

/-! ## Transcript selection rows (refi.py lines 1127-1157)

For each `TranscriptSelection` child the source resolves the two sync-point
guids, collects the memo from `Description` children (`str(ee.text)`, which
renders a missing text as the string "None"), and for every `Coding` child
whose first-child `CodeRef` guid matches a known code appends one
`code_text` row `[cid, fid, text[pos0:pos1], pos0, pos1, owner, date, memo, avid]`. -/

/-- A minimal XML element, as lxml presents it to the importer: a tag,
attributes (`element.get` returns `None` for a missing attribute), optional
text, and a list of children. -/
inductive Elem where
  | mk (tag : String) (attrs : List (String × String)) (text : Option String)
      (children : List Elem)
deriving Repr

def Elem.tag : Elem → String
  | .mk t _ _ _ => t

def Elem.attrs : Elem → List (String × String)
  | .mk _ a _ _ => a

def Elem.text : Elem → Option String
  | .mk _ _ tx _ => tx

def Elem.children : Elem → List Elem
  | .mk _ _ _ c => c

/-- `element.get(name)`: first matching attribute, else `None`. -/
def Elem.get (e : Elem) (name : String) : Option String :=
  (e.attrs.find? (fun p => p.1 == name)).map (fun p => p.2)

/-- The guid→cid registry `self.codes` built while importing the codebook. -/
structure CodeGuid where
  guid : Option String
  cid : Nat
deriving Repr, DecidableEq

/-- One row of the `code_text` table as inserted by the transcript importer. -/
structure CodeTextRow where
  cid : Nat
  fid : Nat
  seltext : String
  pos0 : Nat
  pos1 : Nat
  owner : String
  date : String
  memo : String
  avid : Nat
deriving Repr, DecidableEq

/-- Python errors the embedded fragments can raise. -/
inductive PyErr where
  | indexError
  | keyError
  | typeError
  | valueError
  | attributeError
deriving Repr, DecidableEq

def namespaceQde : String := "\x7burn:QDA-XML:project:1.0\x7d"

/-- `str(x)` on an optional string: Python renders `None` as "None". -/
def pyStr (x : Option String) : String :=
  match x with
  | none => "None"
  | some s => s

/-- Memo extraction of the transcript-selection loop: the last `Description`
child wins, a missing one leaves "". -/
def selectionMemo (e : Elem) : String :=
  e.children.foldl
    (fun acc ee =>
      if ee.tag == namespaceQde ++ "Description" then pyStr ee.text else acc)
    ""

/-- One step of the `for ee in e: if ee.tag == ...Coding:` loop of one
selection: `code_ref = ee.getchildren()[0]` raises IndexError on a childless
Coding; otherwise one row is appended per matching entry of `self.codes`. -/
def codingStep (codes : List CodeGuid) (text : String) (fid : Nat)
    (creating_user create_date memo : String) (av_id : Nat) (pos0 pos1 : Nat)
    (acc : Except PyErr (List CodeTextRow)) (ee : Elem) :
    Except PyErr (List CodeTextRow) :=
  match acc with
  | .error err => .error err
  | .ok rows =>
    if ee.tag == namespaceQde ++ "Coding" then
      match ee.children.head? with
      | none => .error .indexError
      | some code_ref =>
        .ok (rows ++ (codes.filterMap
          (fun c =>
            if c.guid == code_ref.get ("targetGUID") then
              some ⟨c.cid, fid, pySlice text pos0 pos1, pos0, pos1,
                    creating_user, create_date, memo, av_id⟩
            else none)))
    else .ok rows

/-- The Coding loop over the selection's children. -/
def selectionCodingRows (codes : List CodeGuid) (text : String) (fid : Nat)
    (creating_user create_date memo : String) (av_id : Nat)
    (pos0 pos1 : Nat) (e : Elem) : Except PyErr (List CodeTextRow) :=
  e.children.foldl
    (codingStep codes text fid creating_user create_date memo av_id pos0 pos1)
    (.ok [])

/-- The whole per-`TranscriptSelection` processing (refi.py 1129-1151):
resolve both sync-point guids, read the memo, collect the coding rows. -/
def transcriptSelectionRows (syncpoints : List SyncPoint) (codes : List CodeGuid)
    (text : String) (fid : Nat) (creating_user create_date : String) (av_id : Nat)
    (e : Elem) : Except PyErr (List CodeTextRow) :=
  let g0 := e.get ("fromSyncPoint")
  let g1 := e.get ("toSyncPoint")
  let p := resolveSyncPositions syncpoints g0 g1
  selectionCodingRows codes text fid creating_user create_date (selectionMemo e)
    av_id p.1 p.2 e

/-! ## GUID generator (refi.py, `create_guid`, lines 2997-3016)

    v = uuid.uuid4().hex
    guid = "-".join([v[0:8], v[8:12], v[12:16], v[16:20], v[20:33]])
    duplicated = True
    while duplicated:
        duplicated = False
        if guid in self.guids:
            duplicated = True
        if duplicated:
            v = uuid.uuid4().hex
            guid = "-".join([v[0:8], v[8:12], v[12:16], v[16:20], v[20:33]])
    self.guids.append(guid)
    return guid

The random source `uuid.uuid4().hex` is modelled as an explicit stream of
strings indexed by how many draws have been made; the unbounded retry loop
gets a fuel argument (it would not terminate on a random source that only
ever repeats an already-issued value). -/

/-- Python `sep.join(parts)`. -/
def pyJoin (sep : String) : List String → String
  | [] => ""
  | p :: ps => ps.foldl (fun acc q => acc ++ sep ++ q) p

/-- `"-".join([v[0:8], v[8:12], v[12:16], v[16:20], v[20:33]])`.  Note the
source's upper bound 33 on a 32-character `uuid4().hex`: Python clamps, so
the last group has 12 characters. -/
def formatGuid (v : String) : String :=
  pyJoin ("-")
    [pySlice v 0 8, pySlice v 8 12, pySlice v 12 16, pySlice v 16 20,
     pySlice v 20 33]

/-- Generator session state: issued guids (`self.guids`) and the number of
draws taken from the uuid stream. -/
structure GuidState where
  guids : List String
  idx : Nat
deriving Repr, DecidableEq

/-- The `while duplicated` retry loop: `guid` is the current candidate,
`idx` the next unread stream position. -/
def createGuidLoop (stream : Nat → String) :
    Nat → String → List String → Nat → Option (String × Nat)
  | fuel, guid, guids, idx =>
    if guids.contains guid then
      match fuel with
      | 0 => none
      | fuel + 1 => createGuidLoop stream fuel (formatGuid (stream idx)) guids (idx + 1)
    else some (guid, idx)

/-- `create_guid`: draw, retry while duplicated, append to `self.guids`. -/
def create_guid (stream : Nat → String) (fuel : Nat) (st : GuidState) :
    Option (String × GuidState) :=
  match createGuidLoop stream fuel (formatGuid (stream st.idx)) st.guids (st.idx + 1) with
  | none => none
  | some (guid, idx) => some (guid, ⟨st.guids ++ [guid], idx⟩)

/-- `n` successive calls of `create_guid` in one session, collecting the
returned guid strings. -/
def createGuidCalls (stream : Nat → String) (fuel : Nat) :
    Nat → GuidState → Option (List String × GuidState)
  | 0, st => some ([], st)
  | n + 1, st =>
    match create_guid stream fuel st with
    | none => none
    | some (g, st') =>
      match createGuidCalls stream fuel n st' with
      | none => none
      | some (gs, st'') => some (g :: gs, st'')

/-- Hexadecimal digit as the canonical GUID pattern accepts it. -/
def isHexDigit (c : Char) : Bool :=
  c.isDigit || (97 ≤ c.toNat && c.toNat ≤ 102) || (65 ≤ c.toNat && c.toNat ≤ 70)

/-- Consume exactly `n` hex digits from the front, returning the rest. -/
def hexRun : Nat → List Char → Option (List Char)
  | 0, l => some l
  | _ + 1, [] => none
  | n + 1, c :: l => if isHexDigit c then hexRun n l else none

/-- Consume one hyphen. -/
def dashRun : List Char → Option (List Char)
  | c :: l => if c == '-' then some l else none
  | [] => none

/-- The canonical 8-4-4-4-12 pattern: five hyphen-separated hex groups of
lengths 8, 4, 4, 4 and 12, and nothing else. -/
def matchesGuidPattern (s : String) : Bool :=
  (do
    let l1 ← hexRun 8 s.toList
    let l2 ← dashRun l1
    let l3 ← hexRun 4 l2
    let l4 ← dashRun l3
    let l5 ← hexRun 4 l4
    let l6 ← dashRun l5
    let l7 ← hexRun 4 l6
    let l8 ← dashRun l7
    hexRun 12 l8) == some []

/-- A well-formed `uuid4().hex` draw: 32 hex digits. -/
def isHex32 (s : String) : Bool :=
  s.length == 32 && s.toList.all isHexDigit

/-- One component of the sync-point resolution fold (`pos0` and `pos1` are
updated independently, so the pair fold splits into two copies of this). -/
def resolveOne (syncpoints : List SyncPoint) (g : Option String) : Nat :=
  syncpoints.foldl (fun a s => if g == s.guid then s.pos + 1 else a) 0

/-- Lower-case hex digit for `n < 16` (as `uuid4().hex` produces). -/
def hexDigitChar (n : Nat) : Char :=
  if n < 10 then Char.ofNat (48 + n) else Char.ofNat (87 + n)

/-- A deterministic stand-in for the `uuid4().hex` stream, used to witness
the GUID-generator theorem on a concrete run: draw `i` is 31 zeros followed
by the hex digit of `i % 16`. -/
def witStream (i : Nat) : String :=
  String.mk (List.replicate 31 '0' ++ [hexDigitChar (i % 16)])

/-! ## Timestamp marker extraction
(refi.py, `get_transcript_timepoints`, lines 2699-2806)

The source scans the transcript text with six regular expressions
(`re.finditer`) and converts each match into a `[character position,
milliseconds]` anchor.  The regular expressions are embedded as explicit
token lists over a small matcher implementing exactly the constructs they
use: literal characters, `[0-9]`, an optional digit `[0-9]?` (greedy with
backtracking), `[0-9]{1,3}` (greedy with backtracking) and `\s`. -/

/-- A regular-expression token of the six timestamp patterns. -/
inductive RTok where
  | lit (c : Char)
  | digit
  | optDigit
  | rep1to3Digit
  | space
deriving Repr, DecidableEq

/-- `[0-9]` of the patterns. -/
def isDigitChar (c : Char) : Bool :=
  48 ≤ c.toNat && c.toNat ≤ 57

/-- Python `\s`: space, tab, newline, carriage return, vertical tab, form feed. -/
def isSpaceChar (c : Char) : Bool :=
  c == ' ' || c == '\t' || c == '\n' || c == '\r' || c.toNat == 11 || c.toNat == 12

/-- Consume exactly `n` digits. -/
def takeDigits : Nat → List Char → Option (List Char)
  | 0, l => some l
  | _ + 1, [] => none
  | n + 1, c :: l => if isDigitChar c then takeDigits n l else none

/-- Match a token list against a prefix of `l`, returning the number of
characters consumed.  Greedy constructs backtrack as the Python `re` engine
does. -/
def matchToks : List RTok → List Char → Option Nat
  | [], _ => some 0
  | .lit c :: ts, x :: l =>
    if x == c then (matchToks ts l).map (· + 1) else none
  | .lit _ :: _, [] => none
  | .digit :: ts, x :: l =>
    if isDigitChar x then (matchToks ts l).map (· + 1) else none
  | .digit :: _, [] => none
  | .space :: ts, x :: l =>
    if isSpaceChar x then (matchToks ts l).map (· + 1) else none
  | .space :: _, [] => none
  | .optDigit :: ts, [] => matchToks ts []
  | .optDigit :: ts, x :: l =>
    if isDigitChar x then
      match matchToks ts l with
      | some n => some (n + 1)
      | none => matchToks ts (x :: l)
    else matchToks ts (x :: l)
  | .rep1to3Digit :: ts, l =>
    (match takeDigits 3 l with
     | some l3 => (matchToks ts l3).map (· + 3)
     | none => none).orElse (fun _ =>
    (match takeDigits 2 l with
     | some l2 => (matchToks ts l2).map (· + 2)
     | none => none).orElse (fun _ =>
    match takeDigits 1 l with
    | some l1 => (matchToks ts l1).map (· + 1)
    | none => none))

/-- `re.finditer` scan: leftmost match, non-overlapping, resuming right
after each match.  All six timestamp patterns begin with a mandatory
character, so a zero-width match cannot arise; a hypothetical `some 0`
falls into the advance-by-one branch.  The structural `fuel` argument is
initialised to the text length and always equals the remaining list length,
so it never cuts the scan short; it only makes the recursion structural. -/
def finditerAux (toks : List RTok) : Nat → List Char → Nat → List (Nat × Nat)
  | 0, _, _ => []
  | _ + 1, [], _ => []
  | fuel + 1, c :: l, pos =>
    match matchToks toks (c :: l) with
    | some (n + 1) =>
      (pos, n + 1) :: finditerAux toks fuel (l.drop n) (pos + (n + 1))
    | _ => finditerAux toks fuel l (pos + 1)

/-- `re.finditer(pattern, text)` as a list of `(start, length)` spans. -/
def pyFinditer (toks : List RTok) (s : String) : List (Nat × Nat) :=
  finditerAux toks s.toList.length s.toList 0

/-- `int` on a run of decimal digits (leading zeros allowed). -/
def parseNat (l : List Char) : Nat :=
  l.foldl (fun a c => a * 10 + (c.toNat - 48)) 0

/-- Python `str.split(c)` on a character list. -/
def splitOnChar (c : Char) : List Char → List (List Char)
  | [] => [[]]
  | x :: xs =>
    match splitOnChar c xs with
    | [] => [[]]
    | h :: t => if x == c then [] :: h :: t else (x :: h) :: t

/-- The six patterns of `get_transcript_timepoints`, token by token. -/
def mmss1Toks : List RTok :=
  [.lit '[', .optDigit, .digit, .lit ':', .digit, .digit, .lit ']']

def hhmmss1Toks : List RTok :=
  [.lit '[', .digit, .digit, .lit ':', .digit, .digit, .lit ':', .digit, .digit,
   .lit ']']

def mmss2Toks : List RTok :=
  [.lit '[', .optDigit, .digit, .lit '.', .digit, .digit, .lit ']']

def hhmmss2Toks : List RTok :=
  [.lit '[', .digit, .digit, .lit '.', .digit, .digit, .lit '.', .digit, .digit,
   .lit ']']

def hhmmssSssToks : List RTok :=
  [.lit '#', .digit, .digit, .lit ':', .digit, .digit, .lit ':', .digit, .digit,
   .lit '.', .rep1to3Digit, .lit '#']

def srtToks : List RTok :=
  [.digit, .digit, .lit ':', .digit, .digit, .lit ':', .digit, .digit, .lit ',',
   .digit, .digit, .digit, .space, .lit '-', .lit '-', .lit '>', .space,
   .digit, .digit, .lit ':', .digit, .digit, .lit ':', .digit, .digit, .lit ',',
   .digit, .digit, .digit]

/-- `[m?m:ss]` handler: `stamp = match.group()[1:-1]; s = stamp.split(':');
msecs = (int(s[0]) * 60 + int(s[1])) * 1000`.  The pattern guarantees both
parts exist, so indexed access is total here. -/
def mmss1Msecs (m : List Char) : Nat :=
  let stamp := (m.drop 1).dropLast
  let s := splitOnChar ':' stamp
  (parseNat (s.getD 0 []) * 60 + parseNat (s.getD 1 [])) * 1000

/-- `[hh:mm:ss]` handler. -/
def hhmmss1Msecs (m : List Char) : Nat :=
  let stamp := (m.drop 1).dropLast
  let s := splitOnChar ':' stamp
  (parseNat (s.getD 0 []) * 3600 + parseNat (s.getD 1 []) * 60 +
    parseNat (s.getD 2 [])) * 1000

/-- `[m?m.ss]` handler. -/
def mmss2Msecs (m : List Char) : Nat :=
  let stamp := (m.drop 1).dropLast
  let s := splitOnChar '.' stamp
  (parseNat (s.getD 0 []) * 60 + parseNat (s.getD 1 [])) * 1000

/-- `[hh.mm.ss]` handler. -/
def hhmmss2Msecs (m : List Char) : Nat :=
  let stamp := (m.drop 1).dropLast
  let s := splitOnChar '.' stamp
  (parseNat (s.getD 0 []) * 3600 + parseNat (s.getD 1 []) * 60 +
    parseNat (s.getD 2 [])) * 1000

/-- `#hh:mm:ss.f{1,3}#` handler, including the millisecond padding of one-
and two-digit fractions (the source checks the length again after the first
pad, so only an originally two-digit fraction gets the single extra zero). -/
def hhmmssSssMsecs (m : List Char) : Nat :=
  let stamp := (m.drop 1).dropLast
  let hms := splitOnChar ':' stamp
  let secPart := splitOnChar '.' (hms.getD 2 [])
  let text_secs := secPart.getD 0 []
  let text_msecs := secPart.getD 1 []
  let padded :=
    if text_msecs.length == 1 then text_msecs ++ ['0', '0']
    else if text_msecs.length == 2 then text_msecs ++ ['0']
    else text_msecs
  (parseNat (hms.getD 0 []) * 3600 + parseNat (hms.getD 1 []) * 60 +
    parseNat text_secs) * 1000 + parseNat padded

/-- SRT handler: only the first timestamp (`match.group()[0:12]`) is used. -/
def srtMsecs (m : List Char) : Nat :=
  let stamp := m.take 12
  let s := splitOnChar ':' stamp
  let s2 := splitOnChar ',' (s.getD 2 [])
  (parseNat (s.getD 0 []) * 3600 + parseNat (s.getD 1 []) * 60 +
    parseNat (s2.getD 0 [])) * 1000 + parseNat (s2.getD 1 [])

/-- Stable insertion (new element goes after existing elements with the same
position), matching Python's stable `sorted(..., key=itemgetter(0))`. -/
def insertByPos (x : Nat × Nat) : List (Nat × Nat) → List (Nat × Nat)
  | [] => [x]
  | y :: l => if x.1 < y.1 then x :: y :: l else y :: insertByPos x l

/-- Stable sort by character position. -/
def pySortByPos (l : List (Nat × Nat)) : List (Nat × Nat) :=
  l.foldl (fun acc x => insertByPos x acc) []

/-- One finditer pass turned into `[position, milliseconds]` anchors via the
pattern's handler applied to the matched substring. -/
def anchorsOf (toks : List RTok) (handler : List Char → Nat) (text : String) :
    List (Nat × Nat) :=
  (pyFinditer toks text).map
    (fun pr => (pr.1, handler ((text.toList.drop pr.1).take pr.2)))

/-- `get_transcript_timepoints` (refi.py 2699-2806).  `media['fulltext']` is
the optional transcript body; `media_length` stands for the media-probing
collaborator's already-computed duration value (the vlc call).  The source
begins with

    text = media['fulltext']
    if len(text) == 0 or text is None:
        return []

so a `None` fulltext hits `len(None)` — a `TypeError` — before the `None`
test is reached; only the empty string returns `[]`.  Otherwise the six
scans run in source order, the boundary anchors `[0, 0]` (pre-seeded) and
`[len(text) - 1, media_length]` are included, and the whole list is sorted
stably by character position. -/
def get_transcript_timepoints (fulltext : Option String) (media_length : Nat) :
    Except PyErr (List (Nat × Nat)) :=
  match fulltext with
  | none => .error .typeError
  | some text =>
    if text.length == 0 then .ok []
    else
      let time_pos : List (Nat × Nat) := [(0, 0)]
      let time_pos := time_pos ++ anchorsOf mmss1Toks mmss1Msecs text
      let time_pos := time_pos ++ anchorsOf hhmmss1Toks hhmmss1Msecs text
      let time_pos := time_pos ++ anchorsOf mmss2Toks mmss2Msecs text
      let time_pos := time_pos ++ anchorsOf hhmmss2Toks hhmmss2Msecs text
      let time_pos := time_pos ++ anchorsOf hhmmssSssToks hhmmssSssMsecs text
      let time_pos := time_pos ++ anchorsOf srtToks srtMsecs text
      let time_pos := time_pos ++ [(text.length - 1, media_length)]
      .ok (pySortByPos time_pos)

/-! ## Codebook import (refi.py, `sub_codes`, lines 157-270)

`sub_codes` walks an XML Code element recursively.  An element with Code
children is a category: a `code_cat` row is inserted, and if the element is
`isCodable="true"` also a `code_name` row under the fresh category id; a
leaf (no children, or a single Description child) becomes a `code_name`
row.  Every insert sits in `try ... except sqlite3.IntegrityError: pass`,
so a uniqueness violation drops the row silently and the counter is only
incremented on success. -/

def nsCodebook : String := "\x7burn:QDA-XML:codebook:1:0\x7d"

def isDescriptionTag (t : String) : Bool :=
  t == nsCodebook ++ "Description" || t == namespaceQde ++ "Description"

def isCodeChildTag (t : String) : Bool :=
  t == nsCodebook ++ "Code" || t == namespaceQde ++ "Code"

/-- The `description` scan: the last Description child's text wins (it may
be `None`); with no Description child the initial `""` stands. -/
def getDescription (elements : List Elem) : Option String :=
  elements.foldl
    (fun acc e => if isDescriptionTag e.tag then e.text else acc) (some "")

/-- One `code_cat` row. -/
structure CatRow where
  catid : Nat
  name : Option String
  memo : Option String
  owner : String
  date : String
  supercatid : Option Nat
deriving Repr, DecidableEq

/-- One `code_name` row. -/
structure CodeRow where
  cid : Nat
  name : Option String
  memo : Option String
  owner : String
  date : String
  catid : Option Nat
  color : Option String
deriving Repr, DecidableEq

/-- The two codebook tables with autoincrement id counters
(`last_insert_rowid` becomes the id just assigned). -/
structure CodeDB where
  code_cat : List CatRow
  code_name : List CodeRow
  nextCatId : Nat
  nextCodeId : Nat
deriving Repr, DecidableEq

def catNamesAny (l : List CatRow) (s : String) : Bool :=
  l.any (fun r => r.name == some s)

def codeNamesAny (l : List CodeRow) (s : String) : Bool :=
  l.any (fun r => r.name == some s)

/-- Modelled from the spec: the SQLite schema itself is not under src/; the
spec's data model declares code and category names unique within the store,
and `sub_codes` catches `sqlite3.IntegrityError` on every insert.  A
duplicate non-null name violates uniqueness; SQLite's UNIQUE admits
multiple NULLs. -/
def catNameTaken (db : CodeDB) (n : Option String) : Bool :=
  match n with
  | none => false
  | some s => catNamesAny db.code_cat s

/-- Modelled from the spec: uniqueness of code names (see `catNameTaken`). -/
def codeNameTaken (db : CodeDB) (n : Option String) : Bool :=
  match n with
  | none => false
  | some s => codeNamesAny db.code_name s

/-- `insert into code_cat (name, memo, owner, date, supercatid)
values(?,?,'',?,?)` followed by `select last_insert_rowid()`; the caught
IntegrityError of a duplicate name is modelled by `(none, unchanged db)`. -/
def insertCodeCat (db : CodeDB) (name memo : Option String) (date : String)
    (supercatid : Option Nat) : Option Nat × CodeDB :=
  if catNameTaken db name then (none, db)
  else
    (some db.nextCatId,
      { db with
        code_cat := db.code_cat ++ [⟨db.nextCatId, name, memo, "", date, supercatid⟩],
        nextCatId := db.nextCatId + 1 })

/-- `insert into code_name (name,memo,owner,date,catid,color)
values(?,?,'',?,?,?)`, duplicate names dropped as in `insertCodeCat`. -/
def insertCodeName (db : CodeDB) (name memo : Option String) (date : String)
    (catid : Option Nat) (color : Option String) : Option Nat × CodeDB :=
  if codeNameTaken db name then (none, db)
  else
    (some db.nextCodeId,
      { db with
        code_name :=
          db.code_name ++ [⟨db.nextCodeId, name, memo, "", date, catid, color⟩],
        nextCodeId := db.nextCodeId + 1 })

/-- Importer state during the codebook walk: the two tables and the
guid→cid registry `self.codes`. -/
structure SubState where
  db : CodeDB
  codes : List CodeGuid
deriving Repr, DecidableEq

/-- `color = parent.get("color")` defaulting to the fixed neutral gray. -/
def colorDefault (parent : Elem) : String :=
  match parent.get ("color") with
  | none => "#999999"
  | some c => c

/-- The leaf-code insertion common to the two leaf branches of `sub_codes`. -/
def leafCodeInsert (now_date : String) (parent : Elem) (cat_id : Option Nat)
    (description : Option String) (st : SubState) : Nat × SubState :=
  let r := insertCodeName st.db (parent.get ("name")) description now_date cat_id
    (some (colorDefault parent))
  match r.1 with
  | some cid => (1, ⟨r.2, st.codes ++ [⟨parent.get ("guid"), cid⟩]⟩)
  | none => (0, ⟨r.2, st.codes⟩)

/-- The category-branch inserts of `sub_codes` before the recursion into the
children (refi.py 191-223): the `code_cat` insert, and when
`isCodable="true"` also the `code_name` insert under the just-created
category id.  Returns (counter contribution, `last_insert_id`, new state). -/
def categoryOwnInserts (now_date : String) (parent : Elem) (n : String)
    (cat_id : Option Nat) (description : Option String) (st : SubState) :
    Nat × Option Nat × SubState :=
  let r1 := insertCodeCat st.db (some n) description now_date cat_id
  let c1 : Nat := if r1.1.isSome then 1 else 0
  let st1 : SubState := ⟨r1.2, st.codes⟩
  if parent.get ("isCodable") == some ("true") then
    let ri := insertCodeName st1.db (some n) description now_date r1.1
      (some (colorDefault parent))
    match ri.1 with
    | some cid2 => (c1 + 1, r1.1, ⟨ri.2, st1.codes ++ [⟨parent.get ("guid"), cid2⟩]⟩)
    | none => (c1, r1.1, ⟨ri.2, st1.codes⟩)
  else (c1, r1.1, st1)

mutual

/-- `sub_codes(parent, cat_id)` (refi.py 157-270). -/
def sub_codes (now_date : String) : Elem → Option Nat → SubState → Nat × SubState
  | parent@(.mk _ _ _ children), cat_id, st =>
    let description := getDescription children
    let is_category := children.any (fun e => isCodeChildTag e.tag)
    if is_category then
      match parent.get ("name") with
      | some n =>
        let o := categoryOwnInserts now_date parent n cat_id description st
        let rr := sub_codes_children now_date children o.2.1 o.2.2
        (o.1 + rr.1, rr.2)
      | none =>
        sub_codes_children now_date children none st
    else if children.isEmpty then
      leafCodeInsert now_date parent cat_id description st
    else if children.length == 1 &&
        (match children.head? with
         | some e => isDescriptionTag e.tag
         | none => false) then
      leafCodeInsert now_date parent cat_id description st
    else (0, st)

/-- `for e in elements: if e.tag not in (...Description...): counter +=
self.sub_codes(e, last_insert_id)`. -/
def sub_codes_children (now_date : String) :
    List Elem → Option Nat → SubState → Nat × SubState
  | [], _, st => (0, st)
  | e :: rest, cat, st =>
    if isDescriptionTag e.tag then sub_codes_children now_date rest cat st
    else
      let r := sub_codes now_date e cat st
      let r2 := sub_codes_children now_date rest cat r.2
      (r.1 + r2.1, r2.2)

end

/-- The import-conserving shape of one `sub_codes` step relative to a prior
state: both tables only grow at the end (pre-existing rows are untouched),
the returned counter equals exactly the number of appended rows, and no
name already present in a table is ever appended to it again (the
IntegrityError of the duplicate is swallowed and the insert dropped). -/
def ExtProp (st : SubState) (r : Nat × SubState) : Prop :=
  ∃ tc tn,
    r.2.db.code_cat = st.db.code_cat ++ tc ∧
    r.2.db.code_name = st.db.code_name ++ tn ∧
    r.1 = tc.length + tn.length ∧
    (∀ s : String, catNameTaken st.db (some s) = true →
      tc.filter (fun c => c.name == some s) = []) ∧
    (∀ s : String, codeNameTaken st.db (some s) = true →
      tn.filter (fun c => c.name == some s) = [])

/-! ## Case / file-variable resolver
(refi.py, `parse_case_for_file_variables` lines 430-481,
`fill_file_attribute_values` lines 483-494, `parse_cases` lines 555-614)

A `Case` element with no `name` attribute and exactly one `SourceRef` child
is an implicit per-file variable bag: its `VariableValue` children become
file-scoped attribute values staged in `self.file_vars`, flushed later by
`fill_file_attribute_values` once source ids exist.  A named `Case` becomes
a `cases` row. -/

/-- An imported source as `self.sources` records it: exchange guid and
internal id. -/
structure SourceRec where
  guid : Option String
  id : Nat
deriving Repr, DecidableEq

/-- A declared variable as `self.variables` records it (guid and name). -/
structure VarDef where
  guid : Option String
  name : Option String
deriving Repr, DecidableEq

/-- One staged `attr_val` dictionary.  The `name` key is only present when
the `VariableRef` guid resolved against `self.variables` (the source sets
`attr_val['name']` inside the lookup loop), hence the outer `Option`:
`none` models the absent key, whose later access raises `KeyError`. -/
structure FileVar where
  file_guid : Option String
  var_guid : Option String
  value : Option String
  name : Option (Option String)
deriving Repr, DecidableEq

/-- One `attribute` table row. -/
structure AttributeRow where
  name : Option String
  attr_type : String
  value : Option String
  id : Nat
  date : String
  owner : String
deriving Repr, DecidableEq

/-- One `cases` table row. -/
structure CaseRow where
  name : String
  memo : Option String
  owner : String
  date : String
deriving Repr, DecidableEq

def isValueTag (t : String) : Bool :=
  t == namespaceQde ++ "TextValue" || t == namespaceQde ++ "BooleanValue" ||
  t == namespaceQde ++ "IntegerValue" || t == namespaceQde ++ "FloatValue" ||
  t == namespaceQde ++ "DateValue" || t == namespaceQde ++ "DateTimeValue"

/-- One `VariableValue` child: the last `VariableRef` guid and the last
value child's text win; the variable name comes from the first
`self.variables` entry whose guid matches (the lookup loop breaks). -/
def parseVariableValue (variables_ : List VarDef) (file_guid : Option String)
    (el : Elem) : FileVar :=
  let var_guid := el.children.foldl
    (fun acc v =>
      if v.tag == namespaceQde ++ "VariableRef" then v.get ("targetGUID") else acc)
    none
  let value := el.children.foldl
    (fun acc v => if isValueTag v.tag then v.text else acc) none
  ⟨file_guid, var_guid, value,
    (variables_.find? (fun a => a.guid == var_guid)).map (fun a => a.name)⟩

/-- `parse_case_for_file_variables` (refi.py 430-481): returns the entries
appended to `self.file_vars` for this Case element. -/
def parse_case_for_file_variables (variables_ : List VarDef) (e_case : Elem) :
    List FileVar :=
  if (e_case.get ("name")).isSome then []
  else
    let srcRefs := e_case.children.filter
      (fun el => el.tag == namespaceQde ++ "SourceRef")
    let file_guid := srcRefs.foldl (fun _ el => el.get ("targetGUID")) none
    match file_guid with
    | none => []
    | some g =>
      if srcRefs.length != 1 then []
      else
        e_case.children.foldl
          (fun acc el =>
            if el.tag == namespaceQde ++ "VariableValue" then
              acc ++ [parseVariableValue variables_ (some g) el]
            else acc)
          []

/-- The inner body of `fill_file_attribute_values`: one (source, staged
value) pair; a matching pair inserts a `file`-scoped attribute row, and the
`v['name']` access raises `KeyError` when the name key is absent. -/
def fillStep (now_date owner : String) (s : SourceRec)
    (acc : Except PyErr (List AttributeRow)) (v : FileVar) :
    Except PyErr (List AttributeRow) :=
  match acc with
  | .error e => .error e
  | .ok rows =>
    if v.file_guid == s.guid then
      match v.name with
      | none => .error .keyError
      | some nm => .ok (rows ++ [⟨nm, "file", v.value, s.id, now_date, owner⟩])
    else .ok rows

/-- `fill_file_attribute_values` (refi.py 483-494): sources-major double
loop over `self.sources × self.file_vars`. -/
def fill_file_attribute_values (now_date owner : String)
    (sources : List SourceRec) (file_vars : List FileVar) :
    Except PyErr (List AttributeRow) :=
  sources.foldl
    (fun acc s => file_vars.foldl (fillStep now_date owner s) acc)
    (.ok [])

/-- The `cases` rows `parse_cases` (refi.py 584-614) inserts for a Cases
element: one per child with a `name` attribute, none for nameless children.
(The memo scan compares against the `1:0` namespace string exactly as the
source writes it.) -/
def parse_cases_rows (owner now_date : String) (element : Elem) : List CaseRow :=
  element.children.foldl
    (fun acc e =>
      match e.get ("name") with
      | none => acc
      | some nm =>
        let memo := e.children.foldl
          (fun m d =>
            if d.tag == "\x7burn:QDA-XML:project:1:0\x7dDescription" then d.text
            else m)
          (some "")
        acc ++ [⟨nm, memo, owner, now_date⟩])
    []

/-- The attribute rows one source contributes in
`fill_file_attribute_values`: one `file`-scoped row per staged value whose
file guid matches (provided its name key is present). -/
def fileRowsFor (now_date owner : String) (file_vars : List FileVar)
    (s : SourceRec) : List AttributeRow :=
  file_vars.filterMap
    (fun v =>
      if v.file_guid == s.guid then
        v.name.map (fun nm => ⟨nm, "file", v.value, s.id, now_date, owner⟩)
      else none)

/-! ## Picture codings and annotations
(refi.py, `_load_codings_for_picture` lines 826-869, `insert_annotation`
lines 1531-1589)

The picture loader resolves the `CodeRef` guid of each `Coding` child
against `self.codes`; when nothing matches, `cid` stays `None` and the
`code_image` row is inserted anyway (there is no skip and no exception
handler around the insert).  The annotation loader resolves the Note's
source guid against `self.sources` and returns without inserting when it
does not resolve. -/

/-- A user as `self.users` records it. -/
structure UserRec where
  guid : Option String
  name : String
deriving Repr, DecidableEq

/-- One `code_image` row; `cid` is nullable. -/
structure CodeImageRow where
  id : Nat
  x1 : Int
  y1 : Int
  width : Int
  height : Int
  cid : Option Nat
  memo : Option String
  date : String
  owner : String
deriving Repr, DecidableEq

/-- One `annotation` table row. -/
structure AnnotationRow where
  fid : Nat
  pos0 : Int
  pos1 : Int
  memo : String
  owner : String
  date : String
deriving Repr, DecidableEq

/-- Decimal integer parse backing `int(...)` (plain `-?[0-9]+` forms, the
only ones the embedded call sites receive). -/
def parseIntString (s : String) : Option Int :=
  match s.toList with
  | [] => none
  | '-' :: rest =>
    if rest ≠ [] && rest.all isDigitChar then some (-(parseNat rest : Int))
    else none
  | l => if l.all isDigitChar then some ((parseNat l : Int)) else none

/-- `int(x)` on an optional attribute string: `None` raises `TypeError`, a
non-numeric string `ValueError`. -/
def pyInt (x : Option String) : Except PyErr Int :=
  match x with
  | none => .error .typeError
  | some s =>
    match parseIntString s with
    | some n => .ok n
    | none => .error .valueError

/-- The `creatingUser` / `modifyingUser` resolution of the picture loader:
default "default", last matching user wins. -/
def creatingUserOf (users : List UserRec) (element : Elem) : String :=
  let creating_user_guid :=
    match element.get ("creatingUser") with
    | none => element.get ("modifyingUser")
    | some gu => some gu
  users.foldl (fun acc u => if u.guid == creating_user_guid then u.name else acc)
    ("default")

/-- `_load_codings_for_picture` (refi.py 826-869), returning the inserted
`code_image` rows.  For each `Coding` child, `cid` is the cid of the last
code whose guid equals the `CodeRef` target guid, `None` when nothing
matches — and the row is inserted regardless. -/
def load_codings_for_picture (users : List UserRec) (codes : List CodeGuid)
    (id_ : Nat) (element : Elem) : Except PyErr (List CodeImageRow) := do
  let first_x ← pyInt (element.get ("firstX"))
  let first_y ← pyInt (element.get ("firstY"))
  let second_x ← pyInt (element.get ("secondX"))
  let second_y ← pyInt (element.get ("secondY"))
  let width := second_x - first_x
  let height := second_y - first_y
  let memo := element.get ("name")
  let cd0 :=
    match element.get ("creationDateTime") with
    | none => element.get ("modifiedDateTime")
    | some d => some d
  let create_date ←
    match cd0 with
    | none => Except.error PyErr.attributeError
    | some d => Except.ok (pyReplace (pyReplace d ("T") (" ")) ("Z") (""))
  let creating_user := creatingUserOf users element
  element.children.foldl
    (fun acc e =>
      match acc with
      | .error err => .error err
      | .ok rows =>
        if e.tag == namespaceQde ++ "Coding" then
          match e.children.head? with
          | none => .error .indexError
          | some code_ref =>
            let cid := codes.foldl
              (fun c cc =>
                if cc.guid == code_ref.get ("targetGUID") then some cc.cid else c)
              (none : Option Nat)
            .ok (rows ++ [⟨id_, first_x, first_y, width, height, cid, memo,
              create_date, creating_user⟩])
        else .ok rows)
    (.ok [])

/-- `insert_annotation` (refi.py 1531-1589), returning the inserted
`annotation` rows: a Note whose source guid does not resolve against
`self.sources` (or that lacks a selection or text) is skipped entirely. -/
def insert_annotation (codername nowdate : String) (users : List UserRec)
    (sources : List SourceRec) (source_guid : Option String) (element : Elem) :
    Except PyErr (List AnnotationRow) :=
  let owner0 := users.foldl
    (fun acc u => if u.guid == element.get ("modifyingUser") then some u.name else acc)
    (none : Option String)
  let owner1 :=
    match owner0 with
    | some o => some o
    | none => users.foldl
        (fun (acc : Option String) (u : UserRec) =>
          if u.guid == element.get ("creatingUser") then some u.name else acc)
        (none : Option String)
  let owner := owner1.getD codername
  let date :=
    match element.get ("modifiedDateTime") with
    | some d => pyReplace (pyReplace d ("T") (" ")) ("Z") ("")
    | none => nowdate
  let memo := element.children.foldl
    (fun acc el =>
      if el.tag == namespaceQde ++ "PlainTextContent" then el.text else acc)
    (some "")
  let pos0 := element.children.foldl
    (fun acc el =>
      if el.tag == namespaceQde ++ "PlainTextSelection" then el.get ("startPosition")
      else acc)
    (none : Option String)
  let pos1 := element.children.foldl
    (fun acc el =>
      if el.tag == namespaceQde ++ "PlainTextSelection" then el.get ("endPosition")
      else acc)
    (none : Option String)
  match pos0, pos1, memo with
  | some p0, some p1, some m =>
    let fid := sources.foldl
      (fun acc s => if source_guid == s.guid then some s.id else acc)
      (none : Option Nat)
    (match fid with
     | none => .ok []
     | some f => do
         let i0 ← pyInt (some p0)
         let i1 ← pyInt (some p1)
         .ok [⟨f, i0, i1, m, owner, date⟩])
  | _, _, _ => .ok []

/-- One `code_av` row; `cid` is nullable. -/
structure CodeAvRow where
  id : Nat
  pos0 : Int
  pos1 : Int
  cid : Option Nat
  memo : String
  date : String
  owner : String
deriving Repr, DecidableEq

/-- `load_codings_for_audio_video` (refi.py 1159-1212), returning the
inserted `code_av` rows.  The missing-date `AttributeError` is caught and
replaced by the current date (`nowdate`); the memo is the last
`Description` child's text (`""` for a `None` text); for each `Coding`
child, `cid` is the cid of the last code whose guid equals the `CodeRef`
target guid, `None` when nothing matches — and the row is inserted
regardless. -/
def load_codings_for_audio_video (nowdate : String) (users : List UserRec)
    (codes : List CodeGuid) (id_ : Nat) (element : Elem) :
    Except PyErr (List CodeAvRow) := do
  let seg_start ← pyInt (element.get ("begin"))
  let seg_end ← pyInt (element.get ("end"))
  let cd0 :=
    match element.get ("creationDateTime") with
    | none => element.get ("modifiedDateTime")
    | some d => some d
  let create_date :=
    match cd0 with
    | none => nowdate
    | some d => pyReplace (pyReplace d ("T") (" ")) ("Z") ("")
  let creating_user := creatingUserOf users element
  let memo := element.children.foldl
    (fun acc e =>
      if e.tag == namespaceQde ++ "Description" then
        (match e.text with
         | none => ""
         | some t => t)
      else acc)
    ""
  element.children.foldl
    (fun acc e =>
      match acc with
      | .error err => .error err
      | .ok rows =>
        if e.tag == namespaceQde ++ "Coding" then
          match e.children.head? with
          | none => .error .indexError
          | some code_ref =>
            let cid := codes.foldl
              (fun c cc =>
                if cc.guid == code_ref.get ("targetGUID") then some cc.cid else c)
              (none : Option Nat)
            .ok (rows ++ [⟨id_, seg_start, seg_end, cid, memo, create_date,
              creating_user⟩])
        else .ok rows)
    (.ok [])

/-- A `PictureSelection` whose single `Coding` references an unknown code
guid. -/
def c8PicElem : Elem :=
  Elem.mk (namespaceQde ++ "PictureSelection")
    [("firstX", "1"), ("firstY", "2"), ("secondX", "3"), ("secondY", "5"),
     ("name", "memo1"), ("creationDateTime", "2020-01-01T00:00:00Z")] none
    [Elem.mk (namespaceQde ++ "Coding") [] none
      [Elem.mk (namespaceQde ++ "CodeRef") [("targetGUID", "nope")] none []]]

/-- A Note element carrying a selection and text, used with an unresolvable
source guid. -/
def c8NoteElem : Elem :=
  Elem.mk (namespaceQde ++ "Note") [("guid", "ng")] none
    [Elem.mk (namespaceQde ++ "PlainTextContent") [] (some ("a note")) [],
     Elem.mk (namespaceQde ++ "PlainTextSelection")
       [("startPosition", "4"), ("endPosition", "9")] none []]

/-- The `CodeRef` of the transcript-selection witness, referencing an
unknown code guid. -/
def c8TransCodeRef : Elem :=
  Elem.mk (namespaceQde ++ "CodeRef") [("targetGUID", "nope")] none []

/-- A `TranscriptSelection` whose single `Coding` references an unknown
code guid. -/
def c8TransElem : Elem :=
  Elem.mk (namespaceQde ++ "TranscriptSelection")
    [("fromSyncPoint", "s0"), ("toSyncPoint", "s1")] none
    [Elem.mk (namespaceQde ++ "Coding") [] none [c8TransCodeRef]]

/-- A `VideoSelection` whose single `Coding` references an unknown code
guid. -/
def c8AvElem : Elem :=
  Elem.mk (namespaceQde ++ "VideoSelection")
    [("begin", "5"), ("end", "10"),
     ("creationDateTime", "2020-01-01T00:00:00Z")] none
    [Elem.mk (namespaceQde ++ "Coding") [] none
      [Elem.mk (namespaceQde ++ "CodeRef") [("targetGUID", "nope")] none []]]

/-! ## Codebook export
(refi.py, `codebook_xml` lines 2919-2956, `add_sub_categories` lines
2958-2995, `get_codes` / `get_categories` lines 2881-2917,
`convert_xml_predefined_entities` lines 1940-1955)

Export walks `self.categories` (each carrying a mutable per-run `examine`
flag) and `self.codes` (each carrying a prebuilt xml string).
`codebook_xml` emits unlinked codes, then each unexamined top-level
category: flag down, header, its codes, recursively its subcategories via
`add_sub_categories`, which loops (`while unfinished and counter < 5000`)
over passes of the category list, emitting and flagging every unexamined
child of the current category and recursing into it.

The output is modelled as a list of tagged chunks — one chunk per
contiguous xml fragment the source appends, tagged with the category id
(respectively the code's position in `self.codes`) whose element it opens —
so that emission multiplicity is a count over the chunk list while the
produced xml string is exactly the concatenation of the chunk texts.
The unbounded-depth recursion carries fuel, consumed one unit per call;
termination is the theorem that some fuel always suffices. -/

/-- One exported category dict (`get_categories`), with its mutable
`examine` flag. -/
structure XCat where
  name : String
  catid : Nat
  memo : Option String
  guid : String
  supercatid : Option Nat
  examine : Bool
deriving Repr, DecidableEq

/-- One exported code dict (`get_codes`): its category id and its prebuilt
xml fragment. -/
structure XCode where
  catid : Option Nat
  xml : String
deriving Repr, DecidableEq

/-- A tagged xml fragment: the fragment opening category `catid`'s element,
the fragment of the code at position `idx` of `self.codes`, or plain glue
text. -/
inductive Chunk where
  | cat (catid : Nat) (s : String)
  | code (idx : Nat) (s : String)
  | raw (s : String)
deriving Repr, DecidableEq

def chunkText : Chunk → String
  | .cat _ s => s
  | .code _ s => s
  | .raw s => s

def chunksText (ch : List Chunk) : String :=
  String.join (ch.map chunkText)

/-- `convert_xml_predefined_entities` (refi.py 1940-1955). -/
def convert_xml_predefined_entities (text : Option String) : String :=
  match text with
  | none => ""
  | some t =>
    pyReplace (pyReplace (pyReplace (pyReplace (pyReplace t ("&") ("&#038;"))
      ("\"") ("&#034;")) ((Char.ofNat 39).toString) ("&#039;")) ("<") ("&#060;"))
      (">") ("&#062;")

/-- The category element header (identical in `codebook_xml` and
`add_sub_categories`): opening tag with guid, converted name,
`isCodable="false"`, plus the optional Description child. -/
def catHeaderXml (ca : XCat) : String :=
  "<Code guid=\"" ++ ca.guid ++ "\" name=\"" ++
    convert_xml_predefined_entities (some ca.name) ++ "\" isCodable=\"false" ++
    "\">\n" ++
    (if convert_xml_predefined_entities ca.memo != "" then
      "<Description>" ++ convert_xml_predefined_entities ca.memo ++
        "</Description>\n"
     else "")

/-- `for code_ in self.codes: if code_['catid'] is None: xml += code_['xml']`,
with the position carried for chunk identity. -/
def unlinkedChunks (codes : List XCode) (i : Nat) : List Chunk :=
  match codes with
  | [] => []
  | co :: rest =>
    (if co.catid == none then [Chunk.code i co.xml] else []) ++
      unlinkedChunks rest (i + 1)

/-- `for co in self.codes: if co['catid'] == k: xml += co['xml']`. -/
def codesInCatChunks (codes : List XCode) (k : Nat) (i : Nat) : List Chunk :=
  match codes with
  | [] => []
  | co :: rest =>
    (if co.catid == some k then [Chunk.code i co.xml] else []) ++
      codesInCatChunks rest k (i + 1)

def examineCount (cats : List XCat) : Nat :=
  (cats.filter (fun c => c.examine)).length

mutual

/-- The `while unfinished and counter < 5000` loop of `add_sub_categories`
(refi.py 2971-2994). -/
def whileF (codes : List XCode) : Nat → Nat → Bool → Nat → List XCat →
    Option (List Chunk × List XCat)
  | 0, _, _, _, _ => none
  | fuel + 1, counter, unfinished, cid, cats =>
    if unfinished && counter < 5000 then
      match forF codes fuel cid 0 cats.length cats with
      | none => none
      | some (ch, cats2) =>
        match whileF codes fuel (counter + 1) (cats2.any (fun c => c.examine))
            cid cats2 with
        | none => none
        | some (ch2, cats3) => some (ch ++ ch2, cats3)
    else some ([], cats)

/-- One `for c in cats:` pass of `add_sub_categories` (refi.py 2972-2987):
index `i` walks the (length-invariant) list, `todo` counts the remaining
entries structurally.  An unexamined child of `cid` is flagged down, its
header emitted, its subtree recursed into, its codes appended, its element
closed. -/
def forF (codes : List XCode) : Nat → Nat → Nat → Nat → List XCat →
    Option (List Chunk × List XCat)
  | 0, _, _, _, _ => none
  | _ + 1, _, _, 0, cats => some ([], cats)
  | fuel + 1, cid, i, todo + 1, cats =>
    match cats.get? i with
    | none => some ([], cats)
    | some c =>
      if c.examine && c.supercatid == some cid then
        let cats1 := cats.set i { c with examine := false }
        match whileF codes fuel 0 true c.catid cats1 with
        | none => none
        | some (chSub, cats2) =>
          match forF codes fuel cid (i + 1) todo cats2 with
          | none => none
          | some (chRest, cats3) =>
            some (Chunk.cat c.catid (catHeaderXml c) ::
              (chSub ++ codesInCatChunks codes c.catid 0 ++
                [Chunk.raw ("</Code>\n")] ++ chRest), cats3)
      else
        match forF codes fuel cid (i + 1) todo cats with
        | none => none
        | some (chRest, cats2) => some (chRest, cats2)

end

/-- `add_sub_categories(cid, cats)` (refi.py 2958-2995). -/
def add_sub_categories (codes : List XCode) : Nat → Nat → List XCat →
    Option (List Chunk × List XCat)
  | 0, _, _ => none
  | fuel + 1, cid, cats => whileF codes fuel 0 true cid cats

/-- The top-level category loop of `codebook_xml` (refi.py 2938-2953):
every unexamined root category is flagged down and emitted — header, its
codes, then its subcategories. -/
def topForF (codes : List XCode) (fuel : Nat) : Nat → Nat → List XCat →
    Option (List Chunk × List XCat)
  | _, 0, cats => some ([], cats)
  | i, todo + 1, cats =>
    match cats.get? i with
    | none => some ([], cats)
    | some ca =>
      if ca.supercatid == none && ca.examine then
        let cats1 := cats.set i { ca with examine := false }
        match add_sub_categories codes fuel ca.catid cats1 with
        | none => none
        | some (chSub, cats2) =>
          match topForF codes fuel (i + 1) todo cats2 with
          | none => none
          | some (chRest, cats3) =>
            some (Chunk.cat ca.catid (catHeaderXml ca) ::
              (codesInCatChunks codes ca.catid 0 ++ chSub ++
                [Chunk.raw ("</Code>\n")] ++ chRest), cats3)
      else
        match topForF codes fuel (i + 1) todo cats with
        | none => none
        | some (chRest, cats2) => some (chRest, cats2)

/-- `codebook_xml` (refi.py 2919-2956): empty code list short-circuits to
the empty string; otherwise header glue, unlinked codes, the top-level
category walk, trailer glue. -/
def codebook_xml (codes : List XCode) (fuel : Nat) (cats : List XCat) :
    Option (List Chunk × List XCat) :=
  if codes.isEmpty then some ([], cats)
  else
    match topForF codes fuel 0 cats.length cats with
    | none => none
    | some (chTop, cats2) =>
      some (Chunk.raw ("<CodeBook>\n") :: Chunk.raw ("<Codes>\n") ::
        (unlinkedChunks codes 0 ++ chTop ++
          [Chunk.raw ("</Codes>\n"), Chunk.raw ("</CodeBook>\n")]), cats2)

/-- Emission count of category `k`'s element in a chunk list. -/
def catCount (k : Nat) (ch : List Chunk) : Nat :=
  (ch.filter
    (fun c =>
      match c with
      | .cat k2 _ => k2 == k
      | _ => false)).length

/-- Emission count of the code at position `j` of `self.codes`. -/
def codeCount (j : Nat) (ch : List Chunk) : Nat :=
  (ch.filter
    (fun c =>
      match c with
      | .code j2 _ => j2 == j
      | _ => false)).length

/-- Unexamined entries carrying category id `k`. -/
def examineCountFor (k : Nat) (cats : List XCat) : Nat :=
  (cats.filter (fun c => c.catid == k && c.examine)).length

/-- The code-emission discipline of a chunk list: a code chunk only ever
appears inside the element of the category its `catid` names, so its count
is bounded by that category's emission count, and codes with a null
`catid` never appear (in the recursive walk). -/
def chunkInv (codes : List XCode) (ch : List Chunk) : Prop :=
  ∀ (j : Nat) (co : XCode), codes.get? j = some co →
    (co.catid = none → codeCount j ch = 0) ∧
    (∀ k, co.catid = some k → codeCount j ch ≤ catCount k ch)

/-- A category whose `supercatid` names no existing category (dangling
parent id 99), unexamined by nobody: exactly the malformed input C9 ranges
over. -/
def c9Cats : List XCat := [⟨"A", 1, none, "g1", some 99, true⟩]

/-- One unlinked code, so the export does not take the empty-codes
shortcut. -/
def c9Codes : List XCode := [⟨none, "<Code x/>\n"⟩]

/-- A well-formed one-category codebook for the witness run. -/
def c9wCats : List XCat := [⟨"A", 1, none, "g1", none, true⟩]

/-- One code filed under category 1. -/
def c9wCodes : List XCode := [⟨some 1, "<Code y/>\n"⟩]

/-! ## Concrete data for the implicit-file-variable claims -/

def c6SrcRef : Elem :=
  Elem.mk (namespaceQde ++ "SourceRef") [("targetGUID", "fg")] none []

/-- A `VariableValue` child with a `VariableRef` guid and a text value. -/
def c6VV (vg val : String) : Elem :=
  Elem.mk (namespaceQde ++ "VariableValue") [] none
    [Elem.mk (namespaceQde ++ "VariableRef") [("targetGUID", vg)] none [],
     Elem.mk (namespaceQde ++ "TextValue") [] (some val) []]

/-- A nameless Case with two VariableValue children and one SourceRef. -/
def c6Case : Elem :=
  Elem.mk (namespaceQde ++ "Case") [("guid", "cg")] none
    [c6VV ("v1") ("0"), c6VV ("v2") ("1"), c6SrcRef]

def c6Vars : List VarDef := [⟨some ("v1"), some ("Age")⟩, ⟨some ("v2"), some ("Sex")⟩]

/-- Variable declarations missing the "v2" guid (a dangling VariableRef). -/
def c6VarsBad : List VarDef := [⟨some ("v1"), some ("Age")⟩]

def c6Sources : List SourceRec := [⟨some ("fg"), 7⟩]

/-! ## Concrete data for the codebook-import claims -/

/-- A store already holding a category named "dup" and a code named
"dupcode". -/
def dupDB : CodeDB :=
  ⟨[⟨1, some ("dup"), some (""), "", "D", none⟩],
   [⟨1, some ("dupcode"), some (""), "", "D", none, some ("#999999")⟩], 2, 2⟩

def dupSt : SubState := ⟨dupDB, []⟩

/-- A leaf Code element whose name collides with the existing code. -/
def dupElem : Elem :=
  Elem.mk (nsCodebook ++ "Code") [("name", "dupcode"), ("guid", "g9")] none []

/-- A codable category element with one leaf child. -/
def c3Elem : Elem :=
  Elem.mk (nsCodebook ++ "Code")
    [("name", "Cat1"), ("isCodable", "true"), ("guid", "g1")] none
    [Elem.mk (nsCodebook ++ "Code") [("name", "Leaf1"), ("guid", "g2")] none []]

def emptySubState : SubState := ⟨⟨[], [], 1, 1⟩, []⟩

/-! ## Concrete data for the transcript-selection claims -/

/-- Sync points for the concrete transcript-selection run: two distinct
guids storing positions 3 and 7. -/
def selSps : List SyncPoint := [⟨some ("a"), 3, ""⟩, ⟨some ("b"), 7, ""⟩]

/-- One known code guid registered as cid 11. -/
def selCodes : List CodeGuid := [⟨some ("c1"), 11⟩]

/-- A concrete `TranscriptSelection` element: from sync point "a", to sync
point "b", one `Coding` child whose `CodeRef` targets code "c1". -/
def selElem : Elem :=
  Elem.mk (namespaceQde ++ "TranscriptSelection")
    [("fromSyncPoint", "a"), ("toSyncPoint", "b")] none
    [Elem.mk (namespaceQde ++ "Coding") [] none
      [Elem.mk (namespaceQde ++ "CodeRef") [("targetGUID", "c1")] none []]]

/-- The single `code_text` row the source inserts for `selElem`: note
positions 4 and 8, one past the stored sync-point positions 3 and 7. -/
def selRow : CodeTextRow :=
  ⟨11, 1, "4567", 4, 8, "u", "d", "", 2⟩

/-! ## Supporting lemmas -/

theorem foldl_pair_split (l : List SyncPoint) (g0 g1 : Option String) (a b : Nat) :
    l.foldl
      (fun acc s =>
        ((if g0 == s.guid then s.pos + 1 else acc.1),
         (if g1 == s.guid then s.pos + 1 else acc.2)))
      (a, b) =
      (l.foldl (fun x s => if g0 == s.guid then s.pos + 1 else x) a,
       l.foldl (fun x s => if g1 == s.guid then s.pos + 1 else x) b) := by
  induction l generalizing a b with
  | nil => rfl
  | cons s t ih => simp only [List.foldl_cons, ih]

theorem resolve_eq_pair (sps : List SyncPoint) (g0 g1 : Option String) :
    resolveSyncPositions sps g0 g1 = (resolveOne sps g0, resolveOne sps g1) := by
  unfold resolveSyncPositions resolveOne
  exact foldl_pair_split sps g0 g1 0 0

theorem resolveOne_append (l : List SyncPoint) (s : SyncPoint) (g : Option String) :
    resolveOne (l ++ [s]) g =
      (if g == s.guid then s.pos + 1 else resolveOne l g) := by
  unfold resolveOne
  rw [List.foldl_append]
  rfl

theorem lastMatchPos_append (l : List SyncPoint) (s : SyncPoint) (g : Option String) :
    lastMatchPos (l ++ [s]) g =
      (if g == s.guid then some s.pos else lastMatchPos l g) := by
  unfold lastMatchPos
  rw [List.reverse_append]
  simp only [List.reverse_cons, List.reverse_nil, List.nil_append,
    List.singleton_append, List.find?_cons]
  by_cases h : (g == s.guid) = true
  · simp [h]
  · simp [h]

theorem resolveOne_eq_lastMatch (sps : List SyncPoint) (g : Option String) :
    resolveOne sps g =
      (match lastMatchPos sps g with
       | some p => p + 1
       | none => 0) := by
  induction sps using List.reverseRecOn with
  | nil => rfl
  | append_singleton l s ih =>
    rw [resolveOne_append, lastMatchPos_append]
    by_cases h : (g == s.guid) = true
    · simp [h]
    · simp [h, ih]

theorem find?_of_filter_singleton {α : Type} (p : α → Bool) :
    ∀ (l : List α) (x : α), l.filter p = [x] → l.find? p = some x := by
  intro l
  induction l with
  | nil => intro x h; simp at h
  | cons a t ih =>
    intro x h
    by_cases ha : p a = true
    · rw [List.filter_cons_of_pos ha] at h
      rw [List.find?_cons_of_pos _ ha]
      exact congrArg some (List.cons_eq_cons.mp h).1
    · rw [List.filter_cons_of_neg (by simpa using ha)] at h
      rw [List.find?_cons_of_neg _ ha]
      exact ih x h

theorem lastMatchPos_of_filter_singleton (sps : List SyncPoint) (g : Option String)
    (s : SyncPoint) (h : sps.filter (fun t => g == t.guid) = [s]) :
    lastMatchPos sps g = some s.pos := by
  unfold lastMatchPos
  have h2 : sps.reverse.filter (fun t => g == t.guid) =
      (sps.filter (fun t => g == t.guid)).reverse := by
    simp [List.filter_reverse]
  have hrev : sps.reverse.filter (fun t => g == t.guid) = [s] := by
    rw [h2, h]
    rfl
  rw [find?_of_filter_singleton _ _ _ hrev]
  rfl

theorem codingStep_pos (codes : List CodeGuid) (text : String) (fid : Nat)
    (u d memo : String) (avid p0 p1 : Nat)
    (acc : Except PyErr (List CodeTextRow)) (ee : Elem)
    (hacc : ∀ rows, acc = .ok rows → ∀ r ∈ rows, r.pos0 = p0 ∧ r.pos1 = p1) :
    ∀ rows, codingStep codes text fid u d memo avid p0 p1 acc ee = .ok rows →
      ∀ r ∈ rows, r.pos0 = p0 ∧ r.pos1 = p1 := by
  intro rows h r hr
  cases acc with
  | error err => simp [codingStep] at h
  | ok rows0 =>
    simp only [codingStep] at h
    by_cases htag : (ee.tag == namespaceQde ++ "Coding") = true
    · rw [if_pos htag] at h
      cases hh : ee.children.head? with
      | none => rw [hh] at h; simp at h
      | some code_ref =>
        rw [hh] at h
        simp only [Except.ok.injEq] at h
        subst h
        rcases List.mem_append.mp hr with hold | hnew
        · exact hacc rows0 rfl r hold
        · rcases List.mem_filterMap.mp hnew with ⟨c, _, hc⟩
          by_cases hg : (c.guid == code_ref.get ("targetGUID")) = true
          · rw [if_pos hg] at hc
            cases hc
            exact ⟨rfl, rfl⟩
          · rw [if_neg hg] at hc
            exact absurd hc (by simp)
    · rw [if_neg htag] at h
      simp only [Except.ok.injEq] at h
      subst h
      exact hacc rows0 rfl r hr

theorem codingFold_pos (codes : List CodeGuid) (text : String) (fid : Nat)
    (u d memo : String) (avid p0 p1 : Nat) :
    ∀ (cs : List Elem) (acc : Except PyErr (List CodeTextRow)),
      (∀ rows, acc = .ok rows → ∀ r ∈ rows, r.pos0 = p0 ∧ r.pos1 = p1) →
      ∀ rows,
        cs.foldl (codingStep codes text fid u d memo avid p0 p1) acc = .ok rows →
        ∀ r ∈ rows, r.pos0 = p0 ∧ r.pos1 = p1 := by
  intro cs
  induction cs with
  | nil => intro acc hacc rows h; rw [List.foldl_nil] at h; exact hacc rows h
  | cons ee t ih =>
    intro acc hacc rows h
    rw [List.foldl_cons] at h
    exact ih _ (codingStep_pos codes text fid u d memo avid p0 p1 acc ee hacc) rows h

/-! ## Claim C1: duplicate `toSyncPoint` guid resolution -/

/-- C1, counterexample.  With the sync-point list `[(g,5),(g,9)]` the
resolution loop of `parse_transcript_with_codings_and_syncpoints` yields 10
as the end position for a selection whose `toSyncPoint` is `g`: the claim
says the position of the earliest matching entry is used, but 10 is neither
that entry's stored position 5 nor its one-past adjustment 6 — the last
match wins, not the first. -/
theorem c1_first_match_counterexample :
    (resolveSyncPositions [⟨some ("g"), 5, ""⟩, ⟨some ("g"), 9, ""⟩]
        (some ("x")) (some ("g"))).2 = 10 ∧
    firstMatchPos [⟨some ("g"), 5, ""⟩, ⟨some ("g"), 9, ""⟩] (some ("g")) = some 5 ∧
    (10 : Nat) ≠ 5 ∧ (10 : Nat) ≠ 5 + 1 := by
  refine ⟨rfl, rfl, ?_, ?_⟩ <;> decide

/-- C1, amended: when the `toSyncPoint` (or `fromSyncPoint`) guid appears
more than once in the file's SyncPoint list, the loop takes the LAST
matching entry — each resolved endpoint is the last matching entry's stored
position plus one, and 0 when no entry matches. -/
theorem c1_toSyncPoint_resolution_uses_last_match (sps : List SyncPoint)
    (g0 g1 : Option String) :
    resolveSyncPositions sps g0 g1 =
      ((match lastMatchPos sps g0 with
        | some p => p + 1
        | none => 0),
       (match lastMatchPos sps g1 with
        | some p => p + 1
        | none => 0)) := by
  rw [resolve_eq_pair, resolveOne_eq_lastMatch, resolveOne_eq_lastMatch]

/-! ## Claim C2: spans cover the stored sync-point character range -/

/-- C2, counterexample.  Sync points store positions 3 and 7; the inserted
row covers [4,8), not [3,7): both endpoints are the stored position plus
one, so the span does not equal the stored character range. -/
theorem c2_stored_positions_counterexample :
    transcriptSelectionRows selSps selCodes "0123456789" 1 "u" "d" 2 selElem =
      .ok [selRow] ∧
    selRow.pos0 = 4 ∧ selRow.pos1 = 8 ∧ ¬(selRow.pos0 = 3 ∧ selRow.pos1 = 7) := by
  refine ⟨rfl, rfl, rfl, ?_⟩
  decide

/-- C2, amended: when each of the two guids matches exactly one SyncPoint,
every inserted row's span is the stored character range shifted by one:
`pos0` is the `fromSyncPoint` position plus one and `pos1` is the
`toSyncPoint` position plus one. -/
theorem c2_span_is_stored_range_plus_one (sps : List SyncPoint)
    (codes : List CodeGuid) (text : String) (fid : Nat) (u d : String)
    (avid : Nat) (e : Elem) (s0 s1 : SyncPoint) (rows : List CodeTextRow)
    (h0 : sps.filter (fun t => e.get ("fromSyncPoint") == t.guid) = [s0])
    (h1 : sps.filter (fun t => e.get ("toSyncPoint") == t.guid) = [s1])
    (h : transcriptSelectionRows sps codes text fid u d avid e = .ok rows) :
    ∀ r ∈ rows, r.pos0 = s0.pos + 1 ∧ r.pos1 = s1.pos + 1 := by
  unfold transcriptSelectionRows at h
  dsimp only at h
  rw [resolve_eq_pair, resolveOne_eq_lastMatch, resolveOne_eq_lastMatch,
    lastMatchPos_of_filter_singleton sps _ s0 h0,
    lastMatchPos_of_filter_singleton sps _ s1 h1] at h
  exact codingFold_pos codes text fid u d (selectionMemo e) avid
    (s0.pos + 1) (s1.pos + 1) e.children (.ok []) (by intro rows h; cases h; simp)
    rows h

/-- C2, witness: the amended theorem applied to the concrete selection
`selElem` over `selSps`; the produced row spans [3+1, 7+1). -/
theorem c2_span_witness :
    selSps.filter (fun t => selElem.get ("fromSyncPoint") == t.guid) =
      [⟨some ("a"), 3, ""⟩] ∧
    selSps.filter (fun t => selElem.get ("toSyncPoint") == t.guid) =
      [⟨some ("b"), 7, ""⟩] ∧
    selRow.pos0 = 3 + 1 ∧ selRow.pos1 = 7 + 1 :=
  ⟨by decide, by decide,
    (c2_span_is_stored_range_plus_one selSps selCodes "0123456789" 1 "u" "d" 2
      selElem ⟨some ("a"), 3, ""⟩ ⟨some ("b"), 7, ""⟩ [selRow] (by decide)
      (by decide) rfl selRow (by simp)).1,
    (c2_span_is_stored_range_plus_one selSps selCodes "0123456789" 1 "u" "d" 2
      selElem ⟨some ("a"), 3, ""⟩ ⟨some ("b"), 7, ""⟩ [selRow] (by decide)
      (by decide) rfl selRow (by simp)).2⟩

/-! ## Claim C4: GUID uniqueness and format -/

theorem hexRun_append :
    ∀ (g r : List Char), g.all isHexDigit = true →
      hexRun g.length (g ++ r) = some r := by
  intro g
  induction g with
  | nil => intro r _; rfl
  | cons c t ih =>
    intro r hall
    simp only [List.all_cons, Bool.and_eq_true] at hall
    simp only [List.length_cons, List.cons_append]
    unfold hexRun
    rw [if_pos hall.1]
    exact ih r hall.2

theorem all_drop_take (l : List Char) (p : Char → Bool) (h : l.all p = true)
    (a b : Nat) : ((l.drop a).take b).all p = true := by
  rw [List.all_eq_true] at h ⊢
  intro x hx
  exact h x (List.drop_subset a l (List.take_subset b (l.drop a) hx))

theorem formatGuid_toList (v : String) :
    (formatGuid v).toList =
      (v.toList.take 8) ++
        ('-' :: (((v.toList.drop 8).take 4) ++
          ('-' :: (((v.toList.drop 12).take 4) ++
            ('-' :: (((v.toList.drop 16).take 4) ++
              ('-' :: ((v.toList.drop 20).take 13)))))))) := by
  show (formatGuid v).data = _
  simp [formatGuid, pyJoin, pySlice, String.data_append, String.toList]

theorem formatGuid_matches (v : String) (hv : isHex32 v = true) :
    matchesGuidPattern (formatGuid v) = true := by
  have hv2 : (v.toList.length == 32 && v.toList.all isHexDigit) = true := hv
  rw [Bool.and_eq_true, beq_iff_eq] at hv2
  obtain ⟨hlen, hall⟩ := hv2
  have t8 := all_drop_take v.toList isHexDigit hall 0 8
  rw [List.drop_zero] at t8
  have l8 : (v.toList.take 8).length = 8 := by
    rw [List.length_take]; omega
  have t4a := all_drop_take v.toList isHexDigit hall 8 4
  have l4a : ((v.toList.drop 8).take 4).length = 4 := by
    rw [List.length_take, List.length_drop]; omega
  have t4b := all_drop_take v.toList isHexDigit hall 12 4
  have l4b : ((v.toList.drop 12).take 4).length = 4 := by
    rw [List.length_take, List.length_drop]; omega
  have t4c := all_drop_take v.toList isHexDigit hall 16 4
  have l4c : ((v.toList.drop 16).take 4).length = 4 := by
    rw [List.length_take, List.length_drop]; omega
  have t12 := all_drop_take v.toList isHexDigit hall 20 13
  have l12 : ((v.toList.drop 20).take 13).length = 12 := by
    rw [List.length_take, List.length_drop]; omega
  have h8 := hexRun_append (v.toList.take 8)
    ('-' :: (((v.toList.drop 8).take 4) ++
      ('-' :: (((v.toList.drop 12).take 4) ++
        ('-' :: (((v.toList.drop 16).take 4) ++
          ('-' :: ((v.toList.drop 20).take 13)))))))) t8
  rw [l8] at h8
  have h4a := hexRun_append ((v.toList.drop 8).take 4)
    ('-' :: (((v.toList.drop 12).take 4) ++
      ('-' :: (((v.toList.drop 16).take 4) ++
        ('-' :: ((v.toList.drop 20).take 13)))))) t4a
  rw [l4a] at h4a
  have h4b := hexRun_append ((v.toList.drop 12).take 4)
    ('-' :: (((v.toList.drop 16).take 4) ++
      ('-' :: ((v.toList.drop 20).take 13)))) t4b
  rw [l4b] at h4b
  have h4c := hexRun_append ((v.toList.drop 16).take 4)
    ('-' :: ((v.toList.drop 20).take 13)) t4c
  rw [l4c] at h4c
  have h12 := hexRun_append ((v.toList.drop 20).take 13) [] t12
  rw [l12, List.append_nil] at h12
  unfold matchesGuidPattern
  rw [formatGuid_toList, h8]
  simp only [Option.bind_eq_bind, Option.some_bind, dashRun, beq_self_eq_true,
    if_true]
  rw [h4a]
  simp only [Option.some_bind, dashRun, beq_self_eq_true, if_true]
  rw [h4b]
  simp only [Option.some_bind, dashRun, beq_self_eq_true, if_true]
  rw [h4c]
  simp only [Option.some_bind, dashRun, beq_self_eq_true, if_true]
  rw [h12]
  rfl

theorem createGuidLoop_spec (stream : Nat → String) :
    ∀ (fuel : Nat) (guid : String) (guids : List String) (idx : Nat)
      (g : String) (idx2 : Nat),
      createGuidLoop stream fuel guid guids idx = some (g, idx2) →
      g ∉ guids ∧ (g = guid ∨ ∃ i, g = formatGuid (stream i)) := by
  intro fuel
  induction fuel with
  | zero =>
    intro guid guids idx g idx2 h
    unfold createGuidLoop at h
    by_cases hc : guids.contains guid = true
    · rw [if_pos hc] at h; simp at h
    · rw [if_neg hc] at h
      simp only [Option.some.injEq, Prod.mk.injEq] at h
      obtain ⟨hg, _⟩ := h
      subst hg
      refine ⟨?_, Or.inl rfl⟩
      intro hmem
      exact hc (by simpa using hmem)
  | succ f ih =>
    intro guid guids idx g idx2 h
    unfold createGuidLoop at h
    by_cases hc : guids.contains guid = true
    · rw [if_pos hc] at h
      obtain ⟨hnm, hor⟩ := ih _ _ _ _ _ h
      refine ⟨hnm, Or.inr ?_⟩
      rcases hor with heq | ⟨i, hi⟩
      · exact ⟨idx, heq⟩
      · exact ⟨i, hi⟩
    · rw [if_neg hc] at h
      simp only [Option.some.injEq, Prod.mk.injEq] at h
      obtain ⟨hg, _⟩ := h
      subst hg
      refine ⟨?_, Or.inl rfl⟩
      intro hmem
      exact hc (by simpa using hmem)

theorem create_guid_spec (stream : Nat → String) (fuel : Nat) (st : GuidState)
    (g : String) (st' : GuidState)
    (h : create_guid stream fuel st = some (g, st')) :
    g ∉ st.guids ∧ st'.guids = st.guids ++ [g] ∧ ∃ i, g = formatGuid (stream i) := by
  unfold create_guid at h
  cases hl : createGuidLoop stream fuel (formatGuid (stream st.idx)) st.guids
      (st.idx + 1) with
  | none => rw [hl] at h; simp at h
  | some p =>
    obtain ⟨gg, idx2⟩ := p
    rw [hl] at h
    simp only [Option.some.injEq, Prod.mk.injEq] at h
    obtain ⟨hg, hst⟩ := h
    obtain ⟨hnm, hor⟩ := createGuidLoop_spec stream fuel _ _ _ gg idx2 hl
    subst hg
    refine ⟨hnm, ?_, ?_⟩
    · rw [← hst]
    · rcases hor with heq | hex
      · exact ⟨st.idx, heq⟩
      · exact hex

theorem createGuidCalls_spec (stream : Nat → String) (fuel : Nat) :
    ∀ (n : Nat) (st : GuidState) (gs : List String) (st' : GuidState),
      createGuidCalls stream fuel n st = some (gs, st') →
      st.guids.Nodup →
      gs.length = n ∧ st'.guids = st.guids ++ gs ∧ st'.guids.Nodup ∧
        (∀ g ∈ gs, ∃ i, g = formatGuid (stream i)) := by
  intro n
  induction n with
  | zero =>
    intro st gs st' h hnd
    unfold createGuidCalls at h
    simp only [Option.some.injEq, Prod.mk.injEq] at h
    obtain ⟨hgs, hst⟩ := h
    subst hgs
    subst hst
    exact ⟨rfl, (List.append_nil _).symm, hnd, by simp⟩
  | succ m ih =>
    intro st gs st' h hnd
    unfold createGuidCalls at h
    cases h1 : create_guid stream fuel st with
    | none => rw [h1] at h; simp at h
    | some p =>
      obtain ⟨g, st1⟩ := p
      rw [h1] at h
      dsimp only at h
      cases h2 : createGuidCalls stream fuel m st1 with
      | none => rw [h2] at h; simp at h
      | some q =>
        obtain ⟨gs1, st2⟩ := q
        rw [h2] at h
        simp only [Option.some.injEq, Prod.mk.injEq] at h
        obtain ⟨hgs, hst⟩ := h
        subst hgs
        subst hst
        obtain ⟨hnm, happ1, i0, hi0⟩ := create_guid_spec stream fuel st g st1 h1
        have hnd1 : st1.guids.Nodup := by
          rw [happ1, List.nodup_append]
          refine ⟨hnd, List.nodup_singleton g, ?_⟩
          intro a ha hb
          rw [List.mem_singleton] at hb
          subst hb
          exact hnm ha
        obtain ⟨hlen, happ2, hnd2, hform⟩ := ih st1 gs1 st2 h2 hnd1
        refine ⟨by simp [hlen], ?_, hnd2, ?_⟩
        · rw [happ2, happ1, List.append_assoc]
          rfl
        · intro x hx
          rcases List.mem_cons.mp hx with hx1 | hx2
          · subst hx1; exact ⟨i0, hi0⟩
          · exact hform x hx2

/-- C4: N calls of `create_guid` in one export session (session state starts
with an empty issued list, as the class initialiser sets `guids = []`) yield
N pairwise-distinct strings, each matching the canonical 8-4-4-4-12
hex-group pattern.  The `uuid4().hex` randomness is an explicit stream,
assumed to deliver 32-hex-digit strings (as `uuid4().hex` always does); the
unbounded retry loop carries fuel, and a run that completes (returns
`some`) satisfies the claim. -/
theorem c4_create_guid_unique_pattern (stream : Nat → String) (fuel n : Nat)
    (gs : List String) (st' : GuidState)
    (hhex : ∀ i, isHex32 (stream i) = true)
    (h : createGuidCalls stream fuel n ⟨[], 0⟩ = some (gs, st')) :
    gs.length = n ∧ gs.Nodup ∧ ∀ g ∈ gs, matchesGuidPattern g = true := by
  obtain ⟨hlen, happ, hnd, hform⟩ :=
    createGuidCalls_spec stream fuel n ⟨[], 0⟩ gs st' h List.nodup_nil
  refine ⟨hlen, ?_, ?_⟩
  · rw [happ] at hnd
    simpa using hnd
  · intro g hg
    obtain ⟨i, hi⟩ := hform g hg
    rw [hi]
    exact formatGuid_matches _ (hhex i)

theorem isHexDigit_hexDigitChar (m : Nat) (hm : m < 16) :
    isHexDigit (hexDigitChar m) = true := by
  interval_cases m <;> decide

theorem witStream_hex (i : Nat) : isHex32 (witStream i) = true := by
  have hlt : i % 16 < 16 := Nat.mod_lt i (by omega)
  have hd := isHexDigit_hexDigitChar (i % 16) hlt
  unfold witStream isHex32
  rw [Bool.and_eq_true, beq_iff_eq]
  constructor
  · show (List.replicate 31 '0' ++ [hexDigitChar (i % 16)]).length = 32
    simp
  · show (List.replicate 31 '0' ++ [hexDigitChar (i % 16)]).all isHexDigit = true
    rw [List.all_append]
    simp only [List.all_cons, List.all_nil, Bool.and_true, hd, List.all_eq_true]
    intro x hx
    rw [List.eq_of_mem_replicate hx]
    decide

/-- C4, witness: two calls on the deterministic hex stream succeed with one
unit of fuel and return two distinct well-formed guids. -/
theorem c4_witness :
    createGuidCalls witStream 1 2 ⟨[], 0⟩ =
      some (["00000000-0000-0000-0000-000000000000",
             "00000000-0000-0000-0000-000000000001"],
            ⟨["00000000-0000-0000-0000-000000000000",
              "00000000-0000-0000-0000-000000000001"], 2⟩) ∧
    (["00000000-0000-0000-0000-000000000000",
      "00000000-0000-0000-0000-000000000001"] : List String).Nodup :=
  ⟨by decide,
    (c4_create_guid_unique_pattern witStream 1 2
      ["00000000-0000-0000-0000-000000000000",
       "00000000-0000-0000-0000-000000000001"]
      ⟨["00000000-0000-0000-0000-000000000000",
        "00000000-0000-0000-0000-000000000001"], 2⟩
      witStream_hex (by decide)).2.1⟩

/-! ## Claim C5: timestamp marker detection -/

/-- C5: on the transcript text `"[01:02] hello [02:03] world"` the extractor
returns an anchor at the character offset of each opening bracket (0 and 14)
with millisecond values 62000 and 123000, a boundary anchor at position 0,
and a boundary anchor at the end of the text (position 26 = length - 1,
carrying the probed media duration), and the list is sorted by character
position — for every probed duration `d`. -/
theorem c5_timestamp_marker_detection (d : Nat) :
    get_transcript_timepoints (some ("[01:02] hello [02:03] world")) d =
      .ok [(0, 0), (0, 62000), (14, 123000), (26, d)] ∧
    (27 : Nat) = ("[01:02] hello [02:03] world" : String).length ∧
    List.Chain' (fun a b => a ≤ b)
      (List.map Prod.fst
        [((0 : Nat), (0 : Nat)), (0, 62000), (14, 123000), (26, d)]) := by
  refine ⟨by rfl, rfl, ?_⟩
  simp [List.chain'_cons]

/-! ## Claim C10: empty versus missing fulltext -/

/-- C10: the extractor's empty-input handling is asymmetric — an empty
fulltext returns the empty anchor list, while a `None` fulltext raises
`TypeError`, because `len(text)` is evaluated before the `text is None`
test in `if len(text) == 0 or text is None`. -/
theorem c10_none_fulltext_raises :
    get_transcript_timepoints (some ("")) 0 = .ok [] ∧
    get_transcript_timepoints none 0 = .error .typeError :=
  ⟨rfl, rfl⟩

/-! ## Claims C3 and C7: codebook import -/

theorem extProp_comp (st1 st2 st3 : SubState) (n1 n2 : Nat)
    (h1 : ExtProp st1 (n1, st2)) (h2 : ExtProp st2 (n2, st3)) :
    ExtProp st1 (n1 + n2, st3) := by
  obtain ⟨tc1, tn1, hc1, hn1, hcnt1, hf1, hg1⟩ := h1
  obtain ⟨tc2, tn2, hc2, hn2, hcnt2, hf2, hg2⟩ := h2
  refine ⟨tc1 ++ tc2, tn1 ++ tn2, ?_, ?_, ?_, ?_, ?_⟩
  · rw [hc2, hc1, List.append_assoc]
  · rw [hn2, hn1, List.append_assoc]
  · simp only [List.length_append]
    omega
  · intro s hs
    have hs1 : st1.db.code_cat.any (fun r => r.name == some s) = true := hs
    have hc1' : st2.db.code_cat = st1.db.code_cat ++ tc1 := hc1
    have hs2 : catNameTaken st2.db (some s) = true := by
      show st2.db.code_cat.any (fun r => r.name == some s) = true
      rw [hc1', List.any_append, hs1]
      rfl
    rw [List.filter_append, hf1 s hs, hf2 s hs2, List.nil_append]
  · intro s hs
    have hs1 : st1.db.code_name.any (fun r => r.name == some s) = true := hs
    have hn1' : st2.db.code_name = st1.db.code_name ++ tn1 := hn1
    have hs2 : codeNameTaken st2.db (some s) = true := by
      show st2.db.code_name.any (fun r => r.name == some s) = true
      rw [hn1', List.any_append, hs1]
      rfl
    rw [List.filter_append, hg1 s hs, hg2 s hs2, List.nil_append]

theorem extProp_refl (st : SubState) : ExtProp st (0, st) :=
  ⟨[], [], (List.append_nil _).symm, (List.append_nil _).symm, rfl,
    fun _ _ => rfl, fun _ _ => rfl⟩

theorem extProp_of_eq (st : SubState) (r : Nat × SubState) (n : Nat)
    (st2 : SubState) (h : r = (n, st2)) (he : ExtProp st (n, st2)) :
    ExtProp st r := by
  rw [h]
  exact he

theorem filter_singleton_name_nil (row : CodeRow) (m : Option String) (s : String)
    (hrow : row.name = m) (hne : m ≠ some s) :
    List.filter (fun c => c.name == some s) [row] = [] := by
  simp only [List.filter, hrow]
  have : (m == some s) = false := by
    cases m with
    | none => rfl
    | some v =>
      simp only [beq_eq_false_iff_ne, ne_eq, Option.some.injEq]
      intro hv
      apply hne
      rw [hv]
  rw [this]

theorem filter_singleton_catname_nil (row : CatRow) (m : Option String) (s : String)
    (hrow : row.name = m) (hne : m ≠ some s) :
    List.filter (fun c => c.name == some s) [row] = [] := by
  simp only [List.filter, hrow]
  have : (m == some s) = false := by
    cases m with
    | none => rfl
    | some v =>
      simp only [beq_eq_false_iff_ne, ne_eq, Option.some.injEq]
      intro hv
      apply hne
      rw [hv]
  rw [this]

theorem leafCodeInsert_ext (now_date : String) (parent : Elem)
    (cat : Option Nat) (desc : Option String) (st : SubState) :
    ExtProp st (leafCodeInsert now_date parent cat desc st) := by
  by_cases h : codeNameTaken st.db (parent.get ("name")) = true
  · have : leafCodeInsert now_date parent cat desc st = (0, ⟨st.db, st.codes⟩) := by
      simp [leafCodeInsert, insertCodeName, h]
    rw [this]
    exact ⟨[], [], (List.append_nil _).symm, (List.append_nil _).symm, rfl,
      fun _ _ => rfl, fun _ _ => rfl⟩
  · rw [Bool.not_eq_true] at h
    have : leafCodeInsert now_date parent cat desc st =
        (1, ⟨{ st.db with
                code_name := st.db.code_name ++
                  [⟨st.db.nextCodeId, parent.get ("name"), desc, "", now_date, cat,
                    some (colorDefault parent)⟩],
                nextCodeId := st.db.nextCodeId + 1 },
              st.codes ++ [⟨parent.get ("guid"), st.db.nextCodeId⟩]⟩) := by
      simp [leafCodeInsert, insertCodeName, h]
    rw [this]
    refine ⟨[], [⟨st.db.nextCodeId, parent.get ("name"), desc, "", now_date, cat,
      some (colorDefault parent)⟩], (List.append_nil _).symm, rfl, rfl,
      fun _ _ => rfl, ?_⟩
    intro s hs
    apply filter_singleton_name_nil _ (parent.get ("name")) s rfl
    intro hname
    rw [hname] at h
    unfold codeNameTaken at h hs
    rw [hs] at h
    cases h

theorem categoryOwnInserts_ext (now_date : String) (parent : Elem) (n : String)
    (cat : Option Nat) (desc : Option String) (st : SubState) :
    ExtProp st ((categoryOwnInserts now_date parent n cat desc st).1,
      (categoryOwnInserts now_date parent n cat desc st).2.2) := by
  by_cases hc : catNamesAny st.db.code_cat n = true
  all_goals by_cases hcod : (parent.get ("isCodable") == some ("true")) = true
  all_goals by_cases hn2 : codeNamesAny st.db.code_name n = true
  -- the code-name check runs against the state after the category insert,
  -- whose code_name table is unchanged, so it coincides with hn2
  · -- hc true, hcod true, hn2 true
    have : categoryOwnInserts now_date parent n cat desc st =
        (0, none, ⟨st.db, st.codes⟩) := by
      simp [categoryOwnInserts, insertCodeCat, insertCodeName, catNameTaken,
        codeNameTaken, hc, hcod, hn2]
    rw [this]
    exact extProp_refl _
  · -- hc true, hcod true, hn2 false
    rw [Bool.not_eq_true] at hn2
    have : categoryOwnInserts now_date parent n cat desc st =
        (1, none,
          ⟨{ st.db with
              code_name := st.db.code_name ++
                [⟨st.db.nextCodeId, some n, desc, "", now_date, none,
                  some (colorDefault parent)⟩],
              nextCodeId := st.db.nextCodeId + 1 },
            st.codes ++ [⟨parent.get ("guid"), st.db.nextCodeId⟩]⟩) := by
      simp [categoryOwnInserts, insertCodeCat, insertCodeName, catNameTaken,
        codeNameTaken, hc, hcod, hn2]
    rw [this]
    refine ⟨[], [⟨st.db.nextCodeId, some n, desc, "", now_date, none,
      some (colorDefault parent)⟩], (List.append_nil _).symm, rfl, rfl,
      fun _ _ => rfl, ?_⟩
    intro s hs
    apply filter_singleton_name_nil _ (some n) s rfl
    intro hname
    rw [← hname] at hs
    have hs2 : codeNamesAny st.db.code_name n = true := hs
    rw [hs2] at hn2
    cases hn2
  · -- hc true, hcod false, hn2 true
    have : categoryOwnInserts now_date parent n cat desc st =
        (0, none, ⟨st.db, st.codes⟩) := by
      simp [categoryOwnInserts, insertCodeCat, catNameTaken, hc, hcod]
    rw [this]
    exact extProp_refl _
  · -- hc true, hcod false, hn2 false
    have : categoryOwnInserts now_date parent n cat desc st =
        (0, none, ⟨st.db, st.codes⟩) := by
      simp [categoryOwnInserts, insertCodeCat, catNameTaken, hc, hcod]
    rw [this]
    exact extProp_refl _
  · -- hc false, hcod true, hn2 true
    rw [Bool.not_eq_true] at hc
    have : categoryOwnInserts now_date parent n cat desc st =
        (1, some st.db.nextCatId,
          ⟨{ st.db with
              code_cat := st.db.code_cat ++
                [⟨st.db.nextCatId, some n, desc, "", now_date, cat⟩],
              nextCatId := st.db.nextCatId + 1 },
            st.codes⟩) := by
      simp [categoryOwnInserts, insertCodeCat, insertCodeName, catNameTaken,
        codeNameTaken, hc, hcod, hn2]
    rw [this]
    refine ⟨[⟨st.db.nextCatId, some n, desc, "", now_date, cat⟩], [],
      rfl, (List.append_nil _).symm, rfl, ?_, fun _ _ => rfl⟩
    intro s hs
    apply filter_singleton_catname_nil _ (some n) s rfl
    intro hname
    rw [← hname] at hs
    have hs2 : catNamesAny st.db.code_cat n = true := hs
    rw [hs2] at hc
    cases hc
  · -- hc false, hcod true, hn2 false
    rw [Bool.not_eq_true] at hc hn2
    have : categoryOwnInserts now_date parent n cat desc st =
        (2, some st.db.nextCatId,
          ⟨{ st.db with
              code_cat := st.db.code_cat ++
                [⟨st.db.nextCatId, some n, desc, "", now_date, cat⟩],
              code_name := st.db.code_name ++
                [⟨st.db.nextCodeId, some n, desc, "", now_date,
                  some st.db.nextCatId, some (colorDefault parent)⟩],
              nextCatId := st.db.nextCatId + 1,
              nextCodeId := st.db.nextCodeId + 1 },
            st.codes ++ [⟨parent.get ("guid"), st.db.nextCodeId⟩]⟩) := by
      simp [categoryOwnInserts, insertCodeCat, insertCodeName, catNameTaken,
        codeNameTaken, hc, hcod, hn2]
    rw [this]
    refine ⟨[⟨st.db.nextCatId, some n, desc, "", now_date, cat⟩],
      [⟨st.db.nextCodeId, some n, desc, "", now_date, some st.db.nextCatId,
        some (colorDefault parent)⟩], rfl, rfl, rfl, ?_, ?_⟩
    · intro s hs
      apply filter_singleton_catname_nil _ (some n) s rfl
      intro hname
      rw [← hname] at hs
      have hs2 : catNamesAny st.db.code_cat n = true := hs
      rw [hs2] at hc
      cases hc
    · intro s hs
      apply filter_singleton_name_nil _ (some n) s rfl
      intro hname
      rw [← hname] at hs
      have hs2 : codeNamesAny st.db.code_name n = true := hs
      rw [hs2] at hn2
      cases hn2
  · -- hc false, hcod false, hn2 true
    rw [Bool.not_eq_true] at hc
    have : categoryOwnInserts now_date parent n cat desc st =
        (1, some st.db.nextCatId,
          ⟨{ st.db with
              code_cat := st.db.code_cat ++
                [⟨st.db.nextCatId, some n, desc, "", now_date, cat⟩],
              nextCatId := st.db.nextCatId + 1 },
            st.codes⟩) := by
      simp [categoryOwnInserts, insertCodeCat, catNameTaken, hc, hcod]
    rw [this]
    refine ⟨[⟨st.db.nextCatId, some n, desc, "", now_date, cat⟩], [],
      rfl, (List.append_nil _).symm, rfl, ?_, fun _ _ => rfl⟩
    intro s hs
    apply filter_singleton_catname_nil _ (some n) s rfl
    intro hname
    rw [← hname] at hs
    have hs2 : catNamesAny st.db.code_cat n = true := hs
    rw [hs2] at hc
    cases hc
  · -- hc false, hcod false, hn2 false
    rw [Bool.not_eq_true] at hc
    have : categoryOwnInserts now_date parent n cat desc st =
        (1, some st.db.nextCatId,
          ⟨{ st.db with
              code_cat := st.db.code_cat ++
                [⟨st.db.nextCatId, some n, desc, "", now_date, cat⟩],
              nextCatId := st.db.nextCatId + 1 },
            st.codes⟩) := by
      simp [categoryOwnInserts, insertCodeCat, catNameTaken, hc, hcod]
    rw [this]
    refine ⟨[⟨st.db.nextCatId, some n, desc, "", now_date, cat⟩], [],
      rfl, (List.append_nil _).symm, rfl, ?_, fun _ _ => rfl⟩
    intro s hs
    apply filter_singleton_catname_nil _ (some n) s rfl
    intro hname
    rw [← hname] at hs
    have hs2 : catNamesAny st.db.code_cat n = true := hs
    rw [hs2] at hc
    cases hc

mutual

theorem sub_codes_ext (now_date : String) :
    ∀ (parent : Elem) (cat : Option Nat) (st : SubState),
      ExtProp st (sub_codes now_date parent cat st)
  | .mk tag attrs tx children, cat, st => by
    have hchild : ∀ (c : Option Nat) (s : SubState),
        ExtProp s (sub_codes_children now_date children c s) :=
      fun c s => sub_codes_children_ext now_date children c s
    show ExtProp st (sub_codes now_date (.mk tag attrs tx children) cat st)
    simp only [sub_codes]
    by_cases hcat : children.any (fun e => isCodeChildTag e.tag) = true
    · rw [if_pos hcat]
      cases hn : (Elem.mk tag attrs tx children).get ("name") with
      | some n =>
        exact extProp_comp st _ _ _ _
          (categoryOwnInserts_ext now_date (.mk tag attrs tx children) n cat
            (getDescription children) st)
          (hchild _ _)
      | none => exact hchild none st
    · rw [if_neg hcat]
      by_cases hemp : children.isEmpty = true
      · rw [if_pos hemp]
        exact leafCodeInsert_ext now_date (.mk tag attrs tx children) cat
          (getDescription children) st
      · rw [if_neg hemp]
        by_cases hone : (children.length == 1 &&
            (match children.head? with
             | some e => isDescriptionTag e.tag
             | none => false)) = true
        · rw [if_pos hone]
          exact leafCodeInsert_ext now_date (.mk tag attrs tx children) cat
            (getDescription children) st
        · rw [if_neg hone]
          exact extProp_refl st

theorem sub_codes_children_ext (now_date : String) :
    ∀ (cs : List Elem) (cat : Option Nat) (st : SubState),
      ExtProp st (sub_codes_children now_date cs cat st)
  | [], cat, st => by
    show ExtProp st (sub_codes_children now_date [] cat st)
    simp only [sub_codes_children]
    exact extProp_refl st
  | e :: rest, cat, st => by
    show ExtProp st (sub_codes_children now_date (e :: rest) cat st)
    simp only [sub_codes_children]
    by_cases hd : isDescriptionTag e.tag = true
    · rw [if_pos hd]
      exact sub_codes_children_ext now_date rest cat st
    · rw [if_neg hd]
      exact extProp_comp st _ _ _ _
        (sub_codes_ext now_date e cat st)
        (sub_codes_children_ext now_date rest cat _)

end

theorem filter_eq_nil_of_any_false {α : Type} (l : List α) (p : α → Bool)
    (h : l.any p = false) : l.filter p = [] := by
  rw [List.filter_eq_nil_iff]
  intro a ha
  rw [List.any_eq_false] at h
  simp [h a ha]

theorem categoryOwnInserts_success (now_date : String) (parent : Elem) (n : String)
    (cat_id : Option Nat) (desc : Option String) (st : SubState)
    (hcod : parent.get ("isCodable") = some ("true"))
    (h4 : catNamesAny st.db.code_cat n = false)
    (h5 : codeNamesAny st.db.code_name n = false) :
    categoryOwnInserts now_date parent n cat_id desc st =
      (2, some st.db.nextCatId,
        ⟨{ st.db with
            code_cat := st.db.code_cat ++
              [⟨st.db.nextCatId, some n, desc, "", now_date, cat_id⟩],
            code_name := st.db.code_name ++
              [⟨st.db.nextCodeId, some n, desc, "", now_date,
                some st.db.nextCatId, some (colorDefault parent)⟩],
            nextCatId := st.db.nextCatId + 1,
            nextCodeId := st.db.nextCodeId + 1 },
          st.codes ++ [⟨parent.get ("guid"), st.db.nextCodeId⟩]⟩) := by
  simp [categoryOwnInserts, insertCodeCat, insertCodeName, catNameTaken,
    codeNameTaken, hcod, h4, h5]

/-- C3: importing an XML Code element that has Code children and
`isCodable="true"`, whose fresh name `n` collides with no existing category
or code name, inserts exactly one category row and exactly one code row
named `n`, and the code row's `catid` is the id of the category row just
inserted. -/
theorem c3_codable_category_rows (now_date : String) (parent : Elem)
    (cat_id : Option Nat) (st : SubState) (n : String)
    (hcat : parent.children.any (fun e => isCodeChildTag e.tag) = true)
    (hname : parent.get ("name") = some n)
    (hcod : parent.get ("isCodable") = some ("true"))
    (h4 : catNamesAny st.db.code_cat n = false)
    (h5 : codeNamesAny st.db.code_name n = false) :
    ∃ crow corow,
      ((sub_codes now_date parent cat_id st).2.db.code_cat.filter
        (fun c => c.name == some n)) = [crow] ∧
      ((sub_codes now_date parent cat_id st).2.db.code_name.filter
        (fun c => c.name == some n)) = [corow] ∧
      crow.name = some n ∧ corow.name = some n ∧
      corow.catid = some crow.catid := by
  obtain ⟨tag, attrs, tx, children⟩ := parent
  have hcat2 : children.any (fun e => isCodeChildTag e.tag) = true := hcat
  have hsucc := categoryOwnInserts_success now_date (.mk tag attrs tx children)
    n cat_id (getDescription children) st hcod h4 h5
  simp only [sub_codes, hcat2, if_true, hname]
  rw [hsucc]
  obtain ⟨tc, tn, hcc, hnn, _, hfc, hfn⟩ :=
    sub_codes_children_ext now_date children
      (some st.db.nextCatId)
      ⟨{ st.db with
          code_cat := st.db.code_cat ++
            [⟨st.db.nextCatId, some n, getDescription children, "", now_date,
              cat_id⟩],
          code_name := st.db.code_name ++
            [⟨st.db.nextCodeId, some n, getDescription children, "", now_date,
              some st.db.nextCatId,
              some (colorDefault (Elem.mk tag attrs tx children))⟩],
          nextCatId := st.db.nextCatId + 1,
          nextCodeId := st.db.nextCodeId + 1 },
        st.codes ++ [⟨(Elem.mk tag attrs tx children).get ("guid"),
          st.db.nextCodeId⟩]⟩
  refine ⟨⟨st.db.nextCatId, some n, getDescription children, "", now_date,
      cat_id⟩,
    ⟨st.db.nextCodeId, some n, getDescription children, "", now_date,
      some st.db.nextCatId, some (colorDefault (Elem.mk tag attrs tx children))⟩,
    ?_, ?_, rfl, rfl, rfl⟩
  · have hccs : catNameTaken
        ⟨st.db.code_cat ++
          [⟨st.db.nextCatId, some n, getDescription children, "", now_date,
            cat_id⟩],
          st.db.code_name ++
            [⟨st.db.nextCodeId, some n, getDescription children, "", now_date,
              some st.db.nextCatId,
              some (colorDefault (Elem.mk tag attrs tx children))⟩],
          st.db.nextCatId + 1, st.db.nextCodeId + 1⟩ (some n) = true := by
      show catNamesAny (st.db.code_cat ++
        [⟨st.db.nextCatId, some n, getDescription children, "", now_date,
          cat_id⟩]) n = true
      unfold catNamesAny
      rw [List.any_append]
      simp
    rw [hcc, List.filter_append, List.filter_append,
      filter_eq_nil_of_any_false _ _ h4, hfc n hccs, List.nil_append,
      List.append_nil]
    simp
  · have hcns : codeNameTaken
        ⟨st.db.code_cat ++
          [⟨st.db.nextCatId, some n, getDescription children, "", now_date,
            cat_id⟩],
          st.db.code_name ++
            [⟨st.db.nextCodeId, some n, getDescription children, "", now_date,
              some st.db.nextCatId,
              some (colorDefault (Elem.mk tag attrs tx children))⟩],
          st.db.nextCatId + 1, st.db.nextCodeId + 1⟩ (some n) = true := by
      show codeNamesAny (st.db.code_name ++
        [⟨st.db.nextCodeId, some n, getDescription children, "", now_date,
          some st.db.nextCatId,
          some (colorDefault (Elem.mk tag attrs tx children))⟩]) n = true
      unfold codeNamesAny
      rw [List.any_append]
      simp
    rw [hnn, List.filter_append, List.filter_append,
      filter_eq_nil_of_any_false _ _ h5, hfn n hcns, List.nil_append,
      List.append_nil]
    simp

/-- C3, witness: the theorem at a concrete codable category "Cat1" with a
leaf child, over an empty store. -/
theorem c3_witness :
    c3Elem.children.any (fun e => isCodeChildTag e.tag) = true ∧
    c3Elem.get ("name") = some ("Cat1") ∧
    c3Elem.get ("isCodable") = some ("true") ∧
    catNamesAny emptySubState.db.code_cat ("Cat1") = false ∧
    codeNamesAny emptySubState.db.code_name ("Cat1") = false ∧
    (∃ crow corow,
      ((sub_codes "D" c3Elem none emptySubState).2.db.code_cat.filter
        (fun c => c.name == some ("Cat1"))) = [crow] ∧
      ((sub_codes "D" c3Elem none emptySubState).2.db.code_name.filter
        (fun c => c.name == some ("Cat1"))) = [corow] ∧
      crow.name = some ("Cat1") ∧ corow.name = some ("Cat1") ∧
      corow.catid = some crow.catid) :=
  ⟨by decide, by decide, by decide, by decide, by decide,
    c3_codable_category_rows "D" c3Elem none emptySubState "Cat1" (by decide)
      (by decide) (by decide) (by decide) (by decide)⟩

/-- C7: duplicate-name inserts during codebook import are dropped at the
insertion boundary without retry or abort: a colliding `code_cat` or
`code_name` insert returns no id and leaves the store untouched (the
`except sqlite3.IntegrityError: pass`), and over a whole `sub_codes` walk
the pre-existing rows are preserved unchanged as a prefix, no name already
present is ever inserted again, and the returned counter equals exactly the
number of rows actually appended — skipped elements are not counted. -/
theorem c7_integrity_duplicates_dropped (now_date : String) (parent : Elem)
    (cat : Option Nat) (st : SubState) :
    (∀ (name memo : Option String) (date : String) (sc : Option Nat),
      catNameTaken st.db name = true →
        insertCodeCat st.db name memo date sc = (none, st.db)) ∧
    (∀ (name memo : Option String) (date : String) (ci : Option Nat)
        (col : Option String),
      codeNameTaken st.db name = true →
        insertCodeName st.db name memo date ci col = (none, st.db)) ∧
    ExtProp st (sub_codes now_date parent cat st) := by
  refine ⟨?_, ?_, sub_codes_ext now_date parent cat st⟩
  · intro name memo date sc h
    simp [insertCodeCat, h]
  · intro name memo date ci col h
    simp [insertCodeName, h]

/-- C7, witness: the theorem at a concrete leaf whose name collides with an
existing code; the walk inserts nothing and returns counter 0. -/
theorem c7_witness :
    ExtProp dupSt (sub_codes "D" dupElem none dupSt) ∧
    sub_codes "D" dupElem none dupSt = (0, dupSt) ∧
    codeNameTaken dupSt.db (dupElem.get ("name")) = true :=
  ⟨(c7_integrity_duplicates_dropped "D" dupElem none dupSt).2.2,
    by decide, by decide⟩

/-! ## Claim C6: implicit file-variable Case -/

theorem foldl_append_if {α β : Type} (p : α → Bool) (f : α → β) :
    ∀ (l : List α) (acc : List β),
      l.foldl (fun acc el => if p el then acc ++ [f el] else acc) acc =
        acc ++ (l.filter p).map f := by
  intro l
  induction l with
  | nil => intro acc; simp
  | cons x t ih =>
    intro acc
    by_cases hx : p x = true
    · simp only [List.foldl_cons, if_pos hx, ih, List.filter_cons_of_pos hx,
        List.map_cons]
      simp [List.append_assoc]
    · simp only [List.foldl_cons, if_neg hx, ih,
        List.filter_cons_of_neg (by simpa using hx)]

theorem fill_inner_ok (now_date owner : String) (s : SourceRec) :
    ∀ (fvs : List FileVar) (rows : List AttributeRow),
      (∀ v ∈ fvs, (v.file_guid == s.guid) = true → v.name.isSome) →
      fvs.foldl (fillStep now_date owner s) (.ok rows) =
        .ok (rows ++ fileRowsFor now_date owner fvs s) := by
  intro fvs
  induction fvs with
  | nil => intro rows _; simp [fileRowsFor]
  | cons v t ih =>
    intro rows h
    by_cases hm : (v.file_guid == s.guid) = true
    · have hn := h v (by simp) hm
      cases hv : v.name with
      | none => rw [hv] at hn; simp at hn
      | some nm =>
        have hm2 : v.file_guid = s.guid := by simpa using hm
        simp only [List.foldl_cons, fillStep, if_pos hm, hv]
        rw [ih _ (fun w hw => h w (by simp [hw]))]
        simp [fileRowsFor, List.filterMap_cons, hm2, hv, List.append_assoc]
    · have hm2 : ¬(v.file_guid = s.guid) := by simpa using hm
      simp only [List.foldl_cons, fillStep, if_neg hm]
      rw [ih _ (fun w hw => h w (by simp [hw]))]
      simp [fileRowsFor, List.filterMap_cons, hm2]

theorem fill_outer_ok (now_date owner : String) :
    ∀ (sources : List SourceRec) (fvs : List FileVar) (rows : List AttributeRow),
      (∀ s ∈ sources, ∀ v ∈ fvs, (v.file_guid == s.guid) = true → v.name.isSome) →
      sources.foldl (fun acc s => fvs.foldl (fillStep now_date owner s) acc)
          (.ok rows) =
        .ok (rows ++ (sources.map (fileRowsFor now_date owner fvs)).flatten) := by
  intro sources
  induction sources with
  | nil => intro fvs rows _; simp
  | cons s t ih =>
    intro fvs rows h
    simp only [List.foldl_cons]
    rw [fill_inner_ok now_date owner s fvs rows (h s (by simp))]
    rw [ih fvs _ (fun s2 hs2 => h s2 (by simp [hs2]))]
    simp [List.append_assoc]

theorem fileRowsFor_nil_of_no_match (now_date owner : String) (g : String)
    (fvs : List FileVar) (s : SourceRec)
    (hall : ∀ v ∈ fvs, v.file_guid = some g)
    (hne : ((some g : Option String) == s.guid) = false) :
    fileRowsFor now_date owner fvs s = [] := by
  unfold fileRowsFor
  rw [List.filterMap_eq_nil_iff]
  intro v hv
  rw [hall v hv, hne]
  rfl

theorem join_rows_single (now_date owner : String) (g : String)
    (fvs : List FileVar)
    (hall : ∀ v ∈ fvs, v.file_guid = some g) :
    ∀ (sources : List SourceRec) (src : SourceRec),
      sources.filter (fun s => ((some g : Option String) == s.guid)) = [src] →
      (sources.map (fileRowsFor now_date owner fvs)).flatten =
        fileRowsFor now_date owner fvs src := by
  intro sources
  induction sources with
  | nil => intro src h; simp at h
  | cons s t ih =>
    intro src h
    rw [List.filter_cons] at h
    by_cases hm : ((some g : Option String) == s.guid) = true
    · rw [if_pos hm] at h
      obtain ⟨hs, ht⟩ := List.cons_eq_cons.mp h
      subst hs
      have hrest : ∀ y ∈ t, fileRowsFor now_date owner fvs y = [] := by
        intro y hy
        apply fileRowsFor_nil_of_no_match now_date owner g fvs y hall
        by_contra hq
        rw [Bool.not_eq_false] at hq
        have : y ∈ t.filter (fun s => ((some g : Option String) == s.guid)) :=
          List.mem_filter.mpr ⟨hy, hq⟩
        rw [ht] at this
        simp at this
      have : (t.map (fileRowsFor now_date owner fvs)).flatten = [] := by
        rw [List.flatten_eq_nil_iff]
        intro l hl
        rcases List.mem_map.mp hl with ⟨y, hy, hyeq⟩
        rw [← hyeq]
        exact hrest y hy
      simp [this]
    · rw [if_neg hm] at h
      rw [List.map_cons, List.flatten_cons,
        fileRowsFor_nil_of_no_match now_date owner g fvs s hall
          (by simpa using hm),
        List.nil_append]
      exact ih src h

theorem parse_case_two_values (variables_ : List VarDef) (e_case srcEl v1 v2 : Elem)
    (g : String)
    (hn : e_case.get ("name") = none)
    (hsrc : e_case.children.filter
      (fun el => el.tag == namespaceQde ++ "SourceRef") = [srcEl])
    (hg : srcEl.get ("targetGUID") = some g)
    (hvv : e_case.children.filter
      (fun el => el.tag == namespaceQde ++ "VariableValue") = [v1, v2]) :
    parse_case_for_file_variables variables_ e_case =
      [parseVariableValue variables_ (some g) v1,
       parseVariableValue variables_ (some g) v2] := by
  unfold parse_case_for_file_variables
  rw [hn]
  simp only [Option.isSome_none, Bool.false_eq_true, if_false, hsrc,
    List.foldl_cons, List.foldl_nil, hg, List.length_cons, List.length_nil]
  rw [foldl_append_if (fun el => el.tag == namespaceQde ++ "VariableValue")
    (parseVariableValue variables_ (some g)) e_case.children [], hvv]
  rfl

/-- C6, counterexample.  A nameless single-SourceRef Case with two
VariableValue children, one of whose VariableRefs does not resolve against
the declared variables: the staged entry has no name key, and flushing the
staged values raises `KeyError` (the `v['name']` access in
`fill_file_attribute_values`) instead of producing two file-scoped rows. -/
theorem c6_dangling_variable_counterexample :
    c6Case.get ("name") = none ∧
    (c6Case.children.filter
      (fun el => el.tag == namespaceQde ++ "SourceRef")).length = 1 ∧
    (c6Case.children.filter
      (fun el => el.tag == namespaceQde ++ "VariableValue")).length = 2 ∧
    fill_file_attribute_values "D" "coder" c6Sources
      (parse_case_for_file_variables c6VarsBad c6Case) = .error .keyError := by
  refine ⟨rfl, rfl, rfl, ?_⟩
  rfl

/-- C6, amended: for a Case element with no name attribute and exactly one
SourceRef child whose GUID resolves to exactly one imported source, with
two VariableValue children EACH OF WHOSE VariableRef resolves to a declared
variable, the flush inserts exactly two attribute rows with scope "file"
attached to that source's internal id, and `parse_cases` inserts zero Case
rows for this element; when a VariableRef does not resolve, the flush
instead fails with a KeyError. -/
theorem c6_implicit_file_variable_case (now_date owner : String)
    (variables_ : List VarDef) (sources : List SourceRec)
    (e_case srcEl v1 v2 : Elem) (g : String) (src : SourceRec)
    (hn : e_case.get ("name") = none)
    (hsrc : e_case.children.filter
      (fun el => el.tag == namespaceQde ++ "SourceRef") = [srcEl])
    (hg : srcEl.get ("targetGUID") = some g)
    (hvv : e_case.children.filter
      (fun el => el.tag == namespaceQde ++ "VariableValue") = [v1, v2])
    (hres : ∀ fv ∈ parse_case_for_file_variables variables_ e_case,
      fv.name.isSome)
    (hmatch : sources.filter (fun s => ((some g : Option String) == s.guid)) =
      [src]) :
    (∃ nm1 val1 nm2 val2,
      fill_file_attribute_values now_date owner sources
        (parse_case_for_file_variables variables_ e_case) =
        .ok [⟨nm1, "file", val1, src.id, now_date, owner⟩,
             ⟨nm2, "file", val2, src.id, now_date, owner⟩]) ∧
    (∀ (ct : String) (cattrs : List (String × String)) (ctx : Option String),
      parse_cases_rows owner now_date (Elem.mk ct cattrs ctx [e_case]) = []) := by
  have hparse := parse_case_two_values variables_ e_case srcEl v1 v2 g hn hsrc
    hg hvv
  constructor
  · set pv1 := parseVariableValue variables_ (some g) v1 with hpv1
    set pv2 := parseVariableValue variables_ (some g) v2 with hpv2
    have hmem1 : pv1 ∈ parse_case_for_file_variables variables_ e_case := by
      rw [hparse]; simp
    have hmem2 : pv2 ∈ parse_case_for_file_variables variables_ e_case := by
      rw [hparse]; simp
    obtain ⟨nm1, hnm1⟩ := Option.isSome_iff_exists.mp (hres pv1 hmem1)
    obtain ⟨nm2, hnm2⟩ := Option.isSome_iff_exists.mp (hres pv2 hmem2)
    have hfg1 : pv1.file_guid = some g := rfl
    have hfg2 : pv2.file_guid = some g := rfl
    have hall : ∀ v ∈ [pv1, pv2], v.file_guid = some g := by
      intro v hv
      rcases List.mem_cons.mp hv with h1 | hv2
      · rw [h1]; exact hfg1
      · rw [List.mem_singleton.mp hv2]; exact hfg2
    have hnames : ∀ s ∈ sources, ∀ v ∈ [pv1, pv2],
        (v.file_guid == s.guid) = true → v.name.isSome := by
      intro s _ v hv _
      rcases List.mem_cons.mp hv with h1 | hv2
      · rw [h1, hnm1]; rfl
      · rw [List.mem_singleton.mp hv2, hnm2]; rfl
    have hsrcmatch : (pv1.file_guid == src.guid) = true := by
      rw [hfg1]
      have : src ∈ sources.filter
          (fun s => ((some g : Option String) == s.guid)) := by
        rw [hmatch]; simp
      exact (List.mem_filter.mp this).2
    have hsrcmatch2 : (pv2.file_guid == src.guid) = true := hsrcmatch
    refine ⟨nm1, pv1.value, nm2, pv2.value, ?_⟩
    rw [hparse]
    unfold fill_file_attribute_values
    rw [fill_outer_ok now_date owner sources [pv1, pv2] [] hnames,
      join_rows_single now_date owner g [pv1, pv2] hall sources src hmatch]
    unfold fileRowsFor
    simp only [List.filterMap_cons, List.filterMap_nil, hsrcmatch, hsrcmatch2,
      hnm1, hnm2]
    simp
  · intro ct cattrs ctx
    unfold parse_cases_rows
    simp [Elem.children, hn]

/-- C6, witness: the amended theorem applied to the concrete nameless Case
`c6Case` with both variable guids declared; the flush produces exactly the
two file-scoped rows on source id 7. -/
theorem c6_witness :
    c6Case.get ("name") = none ∧
    (∀ fv ∈ parse_case_for_file_variables c6Vars c6Case, fv.name.isSome) ∧
    (∃ nm1 val1 nm2 val2,
      fill_file_attribute_values "D" "coder" c6Sources
        (parse_case_for_file_variables c6Vars c6Case) =
        .ok [⟨nm1, "file", val1, 7, "D", "coder"⟩,
             ⟨nm2, "file", val2, 7, "D", "coder"⟩]) :=
  ⟨rfl, by decide,
    (c6_implicit_file_variable_case "D" "coder" c6Vars c6Sources c6Case
      c6SrcRef (c6VV ("v1") ("0")) (c6VV ("v2") ("1")) "fg" ⟨some ("fg"), 7⟩
      rfl rfl rfl rfl (by decide) (by decide)).1⟩

/-! ## Claim C8: dangling GUID references -/

theorem foldl_if_keep_none {α β : Type} (p : α → Bool) (f : α → β) :
    ∀ (l : List α), (∀ x ∈ l, p x = false) →
      l.foldl (fun acc x => if p x then some (f x) else acc) none = none := by
  intro l
  induction l with
  | nil => intro _; rfl
  | cons x t ih =>
    intro h
    simp only [List.foldl_cons, h x (by simp)]
    exact ih (fun y hy => h y (by simp [hy]))

/-- C8, counterexample.  A picture `Coding` whose `CodeRef` guid resolves
to no known code still inserts a `code_image` row — with a null `cid` —
so the element's contribution is NOT skipped and the store is changed. -/
theorem c8_unresolved_coderef_counterexample :
    load_codings_for_picture [] [] 4 c8PicElem =
      .ok [⟨4, 1, 2, 2, 3, none, some ("memo1"), "2020-01-01 00:00:00",
        "default"⟩] ∧
    ([⟨4, 1, 2, 2, 3, none, some ("memo1"), "2020-01-01 00:00:00",
      "default"⟩] : List CodeImageRow) ≠ [] := by
  exact ⟨rfl, by decide⟩

/-- The `for ee in e: if Coding:` loop of a transcript selection appends
nothing when every `Coding` child's `CodeRef` guid matches no known code:
the inner `for c in self.codes: if c['guid'] == ...` loop guards the
append, so an unresolved guid contributes no row. -/
theorem codingFold_skip (codes : List CodeGuid) (text : String) (fid : Nat)
    (cu cd memo : String) (av_id pos0 pos1 : Nat) :
    ∀ (l : List Elem),
      (∀ ee ∈ l, (ee.tag == namespaceQde ++ "Coding") = true →
        ∃ cr, ee.children.head? = some cr ∧
          ∀ c ∈ codes, (c.guid == cr.get ("targetGUID")) = false) →
      l.foldl (codingStep codes text fid cu cd memo av_id pos0 pos1)
        (.ok []) = .ok [] := by
  intro l
  induction l with
  | nil => intro _; rfl
  | cons ee rest ih =>
    intro hall
    rw [List.foldl_cons]
    have hstep : codingStep codes text fid cu cd memo av_id pos0 pos1
        (.ok []) ee = .ok [] := by
      unfold codingStep
      dsimp only
      by_cases htag : (ee.tag == namespaceQde ++ "Coding") = true
      · obtain ⟨cr, hhd, hno⟩ := hall ee (by simp) htag
        rw [if_pos htag, hhd]
        dsimp only
        have hfm : codes.filterMap
            (fun c =>
              if c.guid == cr.get ("targetGUID") then
                some (⟨c.cid, fid, pySlice text pos0 pos1, pos0, pos1,
                  cu, cd, memo, av_id⟩ : CodeTextRow)
              else none) = [] := by
          rw [List.filterMap_eq_nil_iff]
          intro c hc
          simp [hno c hc]
        rw [hfm]
        rfl
      · rw [if_neg htag]
    rw [hstep]
    exact ih (fun x hx => hall x (by simp [hx]))

/-- C8, amended: a Note (annotation) whose source guid resolves to no
imported source is skipped entirely — no row, no exception; a transcript
`Coding` whose `CodeRef` guid resolves to no known code is skipped — no
`code_text` row; but a picture `Coding` and an audio/video `Coding` whose
`CodeRef` guid resolves to no known code are NOT skipped: the `code_image`
(respectively `code_av`) row is still inserted, with a null code id. -/
theorem c8_dangling_guid_behaviour :
    (∀ (codername nowdate : String) (users : List UserRec)
        (sources : List SourceRec) (source_guid : Option String) (element : Elem),
      (∀ s ∈ sources, (source_guid == s.guid) = false) →
      insert_annotation codername nowdate users sources source_guid element =
        .ok []) ∧
    (∀ (syncpoints : List SyncPoint) (codes : List CodeGuid) (text : String)
        (fid : Nat) (creating_user create_date : String) (av_id : Nat)
        (e : Elem),
      (∀ ee ∈ e.children, (ee.tag == namespaceQde ++ "Coding") = true →
        ∃ cr, ee.children.head? = some cr ∧
          ∀ c ∈ codes, (c.guid == cr.get ("targetGUID")) = false) →
      transcriptSelectionRows syncpoints codes text fid creating_user
        create_date av_id e = .ok []) ∧
    (∀ (users : List UserRec) (codes : List CodeGuid) (id_ : Nat)
        (element codingEl code_ref : Elem) (rows : List CodeImageRow),
      element.children = [codingEl] →
      (codingEl.tag == namespaceQde ++ "Coding") = true →
      codingEl.children.head? = some code_ref →
      (∀ c ∈ codes, (c.guid == code_ref.get ("targetGUID")) = false) →
      load_codings_for_picture users codes id_ element = .ok rows →
      rows.length = 1 ∧ ∀ r ∈ rows, r.cid = none) ∧
    (∀ (nowdate : String) (users : List UserRec) (codes : List CodeGuid)
        (id_ : Nat) (element codingEl code_ref : Elem) (rows : List CodeAvRow),
      element.children = [codingEl] →
      (codingEl.tag == namespaceQde ++ "Coding") = true →
      codingEl.children.head? = some code_ref →
      (∀ c ∈ codes, (c.guid == code_ref.get ("targetGUID")) = false) →
      load_codings_for_audio_video nowdate users codes id_ element = .ok rows →
      rows.length = 1 ∧ ∀ r ∈ rows, r.cid = none) := by
  refine ⟨?_, ?_, ?_, ?_⟩
  · intro codername nowdate users sources source_guid element hall
    unfold insert_annotation
    have hfid : sources.foldl
        (fun acc s => if source_guid == s.guid then some s.id else acc)
        (none : Option Nat) = none := by
      have := foldl_if_keep_none (fun s : SourceRec => source_guid == s.guid)
        (fun s : SourceRec => s.id) sources hall
      simpa using this
    cases hp0 : element.children.foldl
        (fun acc el =>
          if el.tag == namespaceQde ++ "PlainTextSelection" then
            el.get ("startPosition")
          else acc)
        (none : Option String) with
    | none => simp [hp0]
    | some p0 =>
      cases hp1 : element.children.foldl
          (fun acc el =>
            if el.tag == namespaceQde ++ "PlainTextSelection" then
              el.get ("endPosition")
            else acc)
          (none : Option String) with
      | none => simp [hp0, hp1]
      | some p1 =>
        cases hm : element.children.foldl
            (fun acc el =>
              if el.tag == namespaceQde ++ "PlainTextContent" then el.text
              else acc)
            (some "") with
        | none => simp [hp0, hp1, hm]
        | some m =>
          simp only [hp0, hp1, hm]
          rw [hfid]
  · intro syncpoints codes text fid creating_user create_date av_id e hall
    unfold transcriptSelectionRows selectionCodingRows
    dsimp only
    exact codingFold_skip codes text fid creating_user create_date
      (selectionMemo e) av_id
      (resolveSyncPositions syncpoints (e.get ("fromSyncPoint"))
        (e.get ("toSyncPoint"))).1
      (resolveSyncPositions syncpoints (e.get ("fromSyncPoint"))
        (e.get ("toSyncPoint"))).2
      e.children hall
  · intro users codes id_ element codingEl code_ref rows hch htag hhd hnone h
    have hcid : codes.foldl
        (fun c cc =>
          if cc.guid == code_ref.get ("targetGUID") then some cc.cid else c)
        (none : Option Nat) = none := by
      have := foldl_if_keep_none
        (fun cc : CodeGuid => cc.guid == code_ref.get ("targetGUID"))
        (fun cc : CodeGuid => cc.cid) codes hnone
      simpa using this
    unfold load_codings_for_picture at h
    cases hx1 : pyInt (element.get ("firstX")) with
    | error e => rw [hx1] at h; simp [Bind.bind, Except.bind] at h
    | ok x1 =>
    cases hy1 : pyInt (element.get ("firstY")) with
    | error e => rw [hx1, hy1] at h; simp [Bind.bind, Except.bind] at h
    | ok y1 =>
    cases hx2 : pyInt (element.get ("secondX")) with
    | error e => rw [hx1, hy1, hx2] at h; simp [Bind.bind, Except.bind] at h
    | ok x2 =>
    cases hy2 : pyInt (element.get ("secondY")) with
    | error e => rw [hx1, hy1, hx2, hy2] at h; simp [Bind.bind, Except.bind] at h
    | ok y2 =>
    rw [hx1, hy1, hx2, hy2, hch] at h
    cases hcd : (match element.get ("creationDateTime") with
      | none => element.get ("modifiedDateTime")
      | some d => some d) with
    | none =>
      rw [hcd] at h
      simp [Bind.bind, Except.bind] at h
    | some d =>
      rw [hcd] at h
      simp only [Bind.bind, Except.bind, List.foldl_cons, List.foldl_nil, htag,
        if_true, hhd, hcid] at h
      simp only [Except.ok.injEq] at h
      rw [← h]
      refine ⟨rfl, ?_⟩
      intro r hr
      rw [List.mem_singleton.mp hr]
  · intro nowdate users codes id_ element codingEl code_ref rows hch htag hhd
      hnone h
    have hcid : codes.foldl
        (fun c cc =>
          if cc.guid == code_ref.get ("targetGUID") then some cc.cid else c)
        (none : Option Nat) = none := by
      have := foldl_if_keep_none
        (fun cc : CodeGuid => cc.guid == code_ref.get ("targetGUID"))
        (fun cc : CodeGuid => cc.cid) codes hnone
      simpa using this
    unfold load_codings_for_audio_video at h
    cases hsb : pyInt (element.get ("begin")) with
    | error e => rw [hsb] at h; simp [Bind.bind, Except.bind] at h
    | ok sb =>
    cases hse : pyInt (element.get ("end")) with
    | error e => rw [hsb, hse] at h; simp [Bind.bind, Except.bind] at h
    | ok se =>
    rw [hsb, hse, hch] at h
    simp only [Bind.bind, Except.bind, List.foldl_cons, List.foldl_nil, htag,
      if_true, hhd, hcid] at h
    simp only [Except.ok.injEq] at h
    rw [← h]
    refine ⟨rfl, ?_⟩
    intro r hr
    rw [List.mem_singleton.mp hr]

/-- C8, witness: the amended theorem applied to a Note with an unresolvable
source guid (skipped: no row), to a `TranscriptSelection` whose Coding
guid is unknown (skipped: no row), and to the picture and video selections
`c8PicElem` / `c8AvElem` whose Coding guids are unknown (row inserted with
null cid either way). -/
theorem c8_witness :
    (∀ s ∈ ([⟨some ("sg"), 3⟩] : List SourceRec),
      ((some ("missing") : Option String) == s.guid) = false) ∧
    insert_annotation "coder" "D" [] [⟨some ("sg"), 3⟩] (some ("missing"))
      c8NoteElem = .ok [] ∧
    transcriptSelectionRows [] [⟨"g1", 7⟩] "sometext" 2 "u" "dt" 9
      c8TransElem = .ok [] ∧
    (([⟨4, 1, 2, 2, 3, none, some ("memo1"), "2020-01-01 00:00:00",
        "default"⟩] : List CodeImageRow).length = 1 ∧
      ∀ r ∈ ([⟨4, 1, 2, 2, 3, none, some ("memo1"), "2020-01-01 00:00:00",
        "default"⟩] : List CodeImageRow), r.cid = none) ∧
    (([⟨6, 5, 10, none, "", "2020-01-01 00:00:00",
        "default"⟩] : List CodeAvRow).length = 1 ∧
      ∀ r ∈ ([⟨6, 5, 10, none, "", "2020-01-01 00:00:00",
        "default"⟩] : List CodeAvRow), r.cid = none) :=
  ⟨by decide,
   c8_dangling_guid_behaviour.1 "coder" "D" [] [⟨some ("sg"), 3⟩]
     (some ("missing")) c8NoteElem (by decide),
   c8_dangling_guid_behaviour.2.1 [] [⟨"g1", 7⟩] "sometext" 2 "u" "dt" 9
     c8TransElem
     (by
       intro ee hee htag
       have hee2 : ee = Elem.mk (namespaceQde ++ "Coding") [] none
           [c8TransCodeRef] := by
         simpa [c8TransElem, Elem.children] using hee
       subst hee2
       exact ⟨c8TransCodeRef, rfl, by decide⟩),
   c8_dangling_guid_behaviour.2.2.1 [] [] 4 c8PicElem
     (Elem.mk (namespaceQde ++ "Coding") [] none
       [Elem.mk (namespaceQde ++ "CodeRef") [("targetGUID", "nope")] none []])
     (Elem.mk (namespaceQde ++ "CodeRef") [("targetGUID", "nope")] none [])
     [⟨4, 1, 2, 2, 3, none, some ("memo1"), "2020-01-01 00:00:00", "default"⟩]
     rfl rfl rfl (by decide) rfl,
   c8_dangling_guid_behaviour.2.2.2 "NOW" [] [⟨"g1", 7⟩] 6 c8AvElem
     (Elem.mk (namespaceQde ++ "Coding") [] none
       [Elem.mk (namespaceQde ++ "CodeRef") [("targetGUID", "nope")] none []])
     (Elem.mk (namespaceQde ++ "CodeRef") [("targetGUID", "nope")] none [])
     [⟨6, 5, 10, none, "", "2020-01-01 00:00:00", "default"⟩]
     rfl rfl rfl (by decide) rfl⟩

/-! ## Claim C9: codebook export -/

theorem filterLength_set {α : Type} (p : α → Bool) :
    ∀ (l : List α) (i : Nat) (c x : α), l.get? i = some c →
      ((l.set i x).filter p).length + (if p c then 1 else 0) =
        (l.filter p).length + (if p x then 1 else 0) := by
  intro l
  induction l with
  | nil => intro i c x h; simp at h
  | cons a t ih =>
    intro i c x h
    cases i with
    | zero =>
      simp only [List.get?_cons_zero, Option.some.injEq] at h
      subst h
      simp only [List.set_cons_zero, List.filter_cons]
      by_cases hx : p x = true
      · by_cases hc : p a = true
        · simp [hx, hc]
        · simp [hx, hc]
      · by_cases hc : p a = true
        · simp [hx, hc]
        · simp [hx, hc]
    | succ i2 =>
      simp only [List.get?_cons_succ] at h
      have h2 := ih i2 c x h
      simp only [List.set_cons_succ, List.filter_cons]
      by_cases ha : p a = true
      · simp only [ha, if_true, List.length_cons]
        omega
      · simp [ha]
        omega

theorem examineCountFor_set_false (cats : List XCat) (i : Nat) (c : XCat)
    (hget : cats.get? i = some c) (hex : c.examine = true) (k : Nat) :
    examineCountFor k (cats.set i { c with examine := false }) +
      (if c.catid == k then 1 else 0) = examineCountFor k cats := by
  have h2 := filterLength_set (fun cc : XCat => cc.catid == k && cc.examine)
    cats i c { c with examine := false } hget
  dsimp only at h2
  rw [hex, Bool.and_true, Bool.and_false] at h2
  simp only [Bool.false_eq_true, if_false] at h2
  unfold examineCountFor
  omega

theorem examineCount_set_false (cats : List XCat) (i : Nat) (c : XCat)
    (hget : cats.get? i = some c) (hex : c.examine = true) :
    examineCount (cats.set i { c with examine := false }) + 1 =
      examineCount cats := by
  have h2 := filterLength_set (fun cc : XCat => cc.examine) cats i c
    { c with examine := false } hget
  unfold examineCount
  simp [hex] at h2
  omega

theorem catCount_append (k : Nat) (a b : List Chunk) :
    catCount k (a ++ b) = catCount k a + catCount k b := by
  unfold catCount
  rw [List.filter_append, List.length_append]

theorem codeCount_append (j : Nat) (a b : List Chunk) :
    codeCount j (a ++ b) = codeCount j a + codeCount j b := by
  unfold codeCount
  rw [List.filter_append, List.length_append]

theorem catCount_cons_cat (k k2 : Nat) (s : String) (ch : List Chunk) :
    catCount k (Chunk.cat k2 s :: ch) =
      (if k2 == k then 1 else 0) + catCount k ch := by
  by_cases h : (k2 == k) = true
  · simp [catCount, List.filter_cons, h]
    omega
  · simp [catCount, List.filter_cons, h]

theorem codeCount_cons_cat (j k2 : Nat) (s : String) (ch : List Chunk) :
    codeCount j (Chunk.cat k2 s :: ch) = codeCount j ch := by
  simp [codeCount, List.filter_cons]

theorem catCount_cons_code (k j2 : Nat) (s : String) (ch : List Chunk) :
    catCount k (Chunk.code j2 s :: ch) = catCount k ch := by
  simp [catCount, List.filter_cons]

theorem codeCount_cons_code (j j2 : Nat) (s : String) (ch : List Chunk) :
    codeCount j (Chunk.code j2 s :: ch) =
      (if j2 == j then 1 else 0) + codeCount j ch := by
  by_cases h : (j2 == j) = true
  · simp [codeCount, List.filter_cons, h]
    omega
  · simp [codeCount, List.filter_cons, h]

theorem catCount_cons_raw (k : Nat) (s : String) (ch : List Chunk) :
    catCount k (Chunk.raw s :: ch) = catCount k ch := by
  simp [catCount, List.filter_cons]

theorem codeCount_cons_raw (j : Nat) (s : String) (ch : List Chunk) :
    codeCount j (Chunk.raw s :: ch) = codeCount j ch := by
  simp [codeCount, List.filter_cons]

theorem catCount_nil (k : Nat) : catCount k [] = 0 := rfl

theorem codeCount_nil (j : Nat) : codeCount j [] = 0 := rfl

theorem catCount_codesInCat (k2 k : Nat) :
    ∀ (codes : List XCode) (i : Nat),
      catCount k2 (codesInCatChunks codes k i) = 0 := by
  intro codes
  induction codes with
  | nil => intro i; rfl
  | cons co rest ih =>
    intro i
    unfold codesInCatChunks
    rw [catCount_append, ih]
    by_cases h : (co.catid == some k) = true
    · rw [if_pos h]
      rfl
    · rw [if_neg h]
      rfl

theorem codeCount_codesInCat_lt (k : Nat) :
    ∀ (codes : List XCode) (i j0 : Nat), j0 < i →
      codeCount j0 (codesInCatChunks codes k i) = 0 := by
  intro codes
  induction codes with
  | nil => intro i j0 _; rfl
  | cons co rest ih =>
    intro i j0 hlt
    unfold codesInCatChunks
    rw [codeCount_append, ih (i + 1) j0 (by omega)]
    by_cases h : (co.catid == some k) = true
    · rw [if_pos h]
      have hne : (i == j0) = false := by
        simp only [beq_eq_false_iff_ne, ne_eq]
        omega
      rw [codeCount_cons_code, hne, codeCount_nil]
      simp
    · rw [if_neg h]
      rfl

theorem codeCount_codesInCat (k : Nat) :
    ∀ (codes : List XCode) (i j : Nat) (co : XCode), codes.get? j = some co →
      codeCount (i + j) (codesInCatChunks codes k i) =
        (if co.catid == some k then 1 else 0) := by
  intro codes
  induction codes with
  | nil => intro i j co h; simp at h
  | cons c0 rest ih =>
    intro i j co h
    cases j with
    | zero =>
      simp only [List.get?_cons_zero, Option.some.injEq] at h
      subst h
      unfold codesInCatChunks
      rw [codeCount_append, codeCount_codesInCat_lt k rest (i + 1) (i + 0) (by omega)]
      by_cases hc : (c0.catid == some k) = true
      · rw [if_pos hc, if_pos hc]
        rw [codeCount_cons_code]
        have hi : (i == i + 0) = true := by simp
        rw [hi, codeCount_nil]
        simp
      · rw [if_neg hc, if_neg hc]
        simp [codeCount_nil]
    | succ j2 =>
      simp only [List.get?_cons_succ] at h
      have h2 := ih (i + 1) j2 co h
      have harith : i + 1 + j2 = i + (j2 + 1) := by omega
      rw [harith] at h2
      unfold codesInCatChunks
      rw [codeCount_append, h2]
      by_cases hc : (c0.catid == some k) = true
      · rw [if_pos hc]
        have hne : (i == i + (j2 + 1)) = false := by
          simp only [beq_eq_false_iff_ne, ne_eq]
          omega
        rw [codeCount_cons_code, hne, codeCount_nil]
        simp
      · rw [if_neg hc]
        rw [codeCount_nil]
        simp

theorem catCount_unlinked (k2 : Nat) :
    ∀ (codes : List XCode) (i : Nat),
      catCount k2 (unlinkedChunks codes i) = 0 := by
  intro codes
  induction codes with
  | nil => intro i; rfl
  | cons co rest ih =>
    intro i
    unfold unlinkedChunks
    rw [catCount_append, ih]
    by_cases h : (co.catid == none) = true
    · rw [if_pos h]
      rfl
    · rw [if_neg h]
      rfl

theorem codeCount_unlinked_lt :
    ∀ (codes : List XCode) (i j0 : Nat), j0 < i →
      codeCount j0 (unlinkedChunks codes i) = 0 := by
  intro codes
  induction codes with
  | nil => intro i j0 _; rfl
  | cons co rest ih =>
    intro i j0 hlt
    unfold unlinkedChunks
    rw [codeCount_append, ih (i + 1) j0 (by omega)]
    by_cases h : (co.catid == none) = true
    · rw [if_pos h]
      have hne : (i == j0) = false := by
        simp only [beq_eq_false_iff_ne, ne_eq]
        omega
      rw [codeCount_cons_code, hne, codeCount_nil]
      simp
    · rw [if_neg h]
      rfl

theorem codeCount_unlinked :
    ∀ (codes : List XCode) (i j : Nat) (co : XCode), codes.get? j = some co →
      codeCount (i + j) (unlinkedChunks codes i) =
        (if co.catid == none then 1 else 0) := by
  intro codes
  induction codes with
  | nil => intro i j co h; simp at h
  | cons c0 rest ih =>
    intro i j co h
    cases j with
    | zero =>
      simp only [List.get?_cons_zero, Option.some.injEq] at h
      subst h
      unfold unlinkedChunks
      rw [codeCount_append, codeCount_unlinked_lt rest (i + 1) (i + 0) (by omega)]
      by_cases hc : (c0.catid == none) = true
      · rw [if_pos hc, if_pos hc]
        rw [codeCount_cons_code]
        have hi : (i == i + 0) = true := by simp
        rw [hi, codeCount_nil]
        simp
      · rw [if_neg hc, if_neg hc]
        simp [codeCount_nil]
    | succ j2 =>
      simp only [List.get?_cons_succ] at h
      have h2 := ih (i + 1) j2 co h
      have harith : i + 1 + j2 = i + (j2 + 1) := by omega
      rw [harith] at h2
      unfold unlinkedChunks
      rw [codeCount_append, h2]
      by_cases hc : (c0.catid == none) = true
      · rw [if_pos hc]
        have hne : (i == i + (j2 + 1)) = false := by
          simp only [beq_eq_false_iff_ne, ne_eq]
          omega
        rw [codeCount_cons_code, hne, codeCount_nil]
        simp
      · rw [if_neg hc]
        rw [codeCount_nil]
        simp

theorem chunkInv_nil (codes : List XCode) : chunkInv codes [] := by
  intro j co _
  exact ⟨fun _ => rfl, fun k _ => Nat.le_refl 0⟩

theorem chunkInv_append (codes : List XCode) (a b : List Chunk)
    (ha : chunkInv codes a) (hb : chunkInv codes b) :
    chunkInv codes (a ++ b) := by
  intro j co h
  obtain ⟨ha1, ha2⟩ := ha j co h
  obtain ⟨hb1, hb2⟩ := hb j co h
  constructor
  · intro hn
    rw [codeCount_append, ha1 hn, hb1 hn]
  · intro k hk
    rw [codeCount_append, catCount_append]
    exact Nat.add_le_add (ha2 k hk) (hb2 k hk)

theorem chunkInv_block (codes : List XCode) (k : Nat) (hdr cl : String)
    (chSub chRest : List Chunk)
    (hsub : chunkInv codes chSub) (hrest : chunkInv codes chRest) :
    chunkInv codes (Chunk.cat k hdr ::
      (chSub ++ codesInCatChunks codes k 0 ++ [Chunk.raw cl] ++ chRest)) := by
  intro j co h
  obtain ⟨hs1, hs2⟩ := hsub j co h
  obtain ⟨hr1, hr2⟩ := hrest j co h
  have hcc := codeCount_codesInCat k codes 0 j co h
  rw [Nat.zero_add] at hcc
  constructor
  · intro hn
    rw [codeCount_cons_cat]
    rw [codeCount_append, codeCount_append, codeCount_append,
      hs1 hn, hr1 hn, hcc, hn]
    rfl
  · intro k2 hk2
    rw [codeCount_cons_cat, catCount_cons_cat]
    rw [codeCount_append, codeCount_append, codeCount_append,
      catCount_append, catCount_append, catCount_append,
      catCount_codesInCat k2 k codes 0, hcc, hk2]
    have hraw1 : codeCount j [Chunk.raw cl] = 0 := rfl
    have hraw2 : catCount k2 [Chunk.raw cl] = 0 := rfl
    rw [hraw1, hraw2]
    by_cases hkk : k = k2
    · subst hkk
      have ht : ((some k : Option Nat) == some k) = true := by simp
      have hk : (k == k) = true := by simp
      rw [ht, hk]
      have := hs2 k hk2
      have := hr2 k hk2
      omega
    · have hf : ((some k2 : Option Nat) == some k) = false := by
        simp only [beq_eq_false_iff_ne, ne_eq, Option.some.injEq]
        intro hx
        exact hkk hx.symm
      have hf2 : (k == k2) = false := by
        simp only [beq_eq_false_iff_ne, ne_eq]
        intro hx
        exact hkk hx
      rw [hf, hf2]
      have := hs2 k2 hk2
      have := hr2 k2 hk2
      omega

theorem chunkInv_block_top (codes : List XCode) (k : Nat) (hdr cl : String)
    (chSub chRest : List Chunk)
    (hsub : chunkInv codes chSub) (hrest : chunkInv codes chRest) :
    chunkInv codes (Chunk.cat k hdr ::
      (codesInCatChunks codes k 0 ++ chSub ++ [Chunk.raw cl] ++ chRest)) := by
  intro j co h
  obtain ⟨hs1, hs2⟩ := hsub j co h
  obtain ⟨hr1, hr2⟩ := hrest j co h
  have hcc := codeCount_codesInCat k codes 0 j co h
  rw [Nat.zero_add] at hcc
  constructor
  · intro hn
    rw [codeCount_cons_cat]
    rw [codeCount_append, codeCount_append, codeCount_append,
      hs1 hn, hr1 hn, hcc, hn]
    rfl
  · intro k2 hk2
    rw [codeCount_cons_cat, catCount_cons_cat]
    rw [codeCount_append, codeCount_append, codeCount_append,
      catCount_append, catCount_append, catCount_append,
      catCount_codesInCat k2 k codes 0, hcc, hk2]
    have hraw1 : codeCount j [Chunk.raw cl] = 0 := rfl
    have hraw2 : catCount k2 [Chunk.raw cl] = 0 := rfl
    rw [hraw1, hraw2]
    by_cases hkk : k = k2
    · subst hkk
      have ht : ((some k : Option Nat) == some k) = true := by simp
      have hk : (k == k) = true := by simp
      rw [ht, hk]
      have := hs2 k hk2
      have := hr2 k hk2
      omega
    · have hf : ((some k2 : Option Nat) == some k) = false := by
        simp only [beq_eq_false_iff_ne, ne_eq, Option.some.injEq]
        intro hx
        exact hkk hx.symm
      have hf2 : (k == k2) = false := by
        simp only [beq_eq_false_iff_ne, ne_eq]
        intro hx
        exact hkk hx
      rw [hf, hf2]
      have := hs2 k2 hk2
      have := hr2 k2 hk2
      omega

theorem wfInv (codes : List XCode) : ∀ (fuel : Nat),
    (∀ (counter : Nat) (unf : Bool) (cid : Nat) (cats : List XCat)
        (ch : List Chunk) (catsF : List XCat),
      whileF codes fuel counter unf cid cats = some (ch, catsF) →
      (∀ k, catCount k ch + examineCountFor k catsF ≤ examineCountFor k cats) ∧
      examineCount catsF ≤ examineCount cats ∧
      chunkInv codes ch) ∧
    (∀ (cid i todo : Nat) (cats : List XCat) (ch : List Chunk)
        (catsF : List XCat),
      forF codes fuel cid i todo cats = some (ch, catsF) →
      (∀ k, catCount k ch + examineCountFor k catsF ≤ examineCountFor k cats) ∧
      examineCount catsF ≤ examineCount cats ∧
      chunkInv codes ch) := by
  intro fuel
  induction fuel with
  | zero =>
    constructor
    · intro counter unf cid cats ch catsF h
      simp [whileF] at h
    · intro cid i todo cats ch catsF h
      simp [forF] at h
  | succ f ih =>
    obtain ⟨ihW, ihF⟩ := ih
    constructor
    · intro counter unf cid cats ch catsF h
      simp only [whileF] at h
      by_cases hc : (unf && decide (counter < 5000)) = true
      · rw [if_pos hc] at h
        cases hf : forF codes f cid 0 cats.length cats with
        | none => rw [hf] at h; simp at h
        | some p =>
          obtain ⟨ch1, catsA⟩ := p
          rw [hf] at h
          dsimp only at h
          cases hw : whileF codes f (counter + 1)
              (catsA.any (fun c => c.examine)) cid catsA with
          | none => rw [hw] at h; simp at h
          | some q =>
            obtain ⟨ch2, catsB⟩ := q
            rw [hw] at h
            dsimp only at h
            simp only [Option.some.injEq, Prod.mk.injEq] at h
            obtain ⟨hch, hcats⟩ := h
            subst hch
            subst hcats
            obtain ⟨f1, f2, f3⟩ := ihF cid 0 cats.length cats ch1 catsA hf
            obtain ⟨w1, w2, w3⟩ := ihW (counter + 1)
              (catsA.any (fun c => c.examine)) cid catsA ch2 catsB hw
            refine ⟨?_, by omega, chunkInv_append codes ch1 ch2 f3 w3⟩
            intro k
            have hf1 := f1 k
            have hw1 := w1 k
            rw [catCount_append]
            omega
      · rw [if_neg hc] at h
        simp only [Option.some.injEq, Prod.mk.injEq] at h
        obtain ⟨hch, hcats⟩ := h
        subst hch
        subst hcats
        refine ⟨?_, Nat.le_refl _, chunkInv_nil codes⟩
        intro k
        rw [catCount_nil]
        omega
    · intro cid i todo cats ch catsF h
      cases todo with
      | zero =>
        simp only [forF, Option.some.injEq, Prod.mk.injEq] at h
        obtain ⟨hch, hcats⟩ := h
        subst hch
        subst hcats
        refine ⟨?_, Nat.le_refl _, chunkInv_nil codes⟩
        intro k
        rw [catCount_nil]
        omega
      | succ td =>
        simp only [forF] at h
        cases hget : cats.get? i with
        | none =>
          rw [hget] at h
          simp only [Option.some.injEq, Prod.mk.injEq] at h
          obtain ⟨hch, hcats⟩ := h
          subst hch
          subst hcats
          refine ⟨?_, Nat.le_refl _, chunkInv_nil codes⟩
          intro k
          rw [catCount_nil]
          omega
        | some c =>
          rw [hget] at h
          dsimp only at h
          by_cases hcond : (c.examine && c.supercatid == some cid) = true
          · rw [if_pos hcond] at h
            have hek : c.examine = true := by
              have := hcond
              rw [Bool.and_eq_true] at this
              exact this.1
            cases hw : whileF codes f 0 true c.catid
                (cats.set i { c with examine := false }) with
            | none => rw [hw] at h; simp at h
            | some p =>
              obtain ⟨chSub, catsA⟩ := p
              rw [hw] at h
              dsimp only at h
              cases hrest : forF codes f cid (i + 1) td catsA with
              | none => rw [hrest] at h; simp at h
              | some q =>
                obtain ⟨chRest, catsB⟩ := q
                rw [hrest] at h
                dsimp only at h
                simp only [Option.some.injEq, Prod.mk.injEq] at h
                obtain ⟨hch, hcats⟩ := h
                subst hch
                subst hcats
                obtain ⟨w1, w2, w3⟩ := ihW 0 true c.catid
                  (cats.set i { c with examine := false }) chSub catsA hw
                obtain ⟨r1, r2, r3⟩ := ihF cid (i + 1) td catsA chRest catsB
                  hrest
                refine ⟨?_, ?_, chunkInv_block codes c.catid (catHeaderXml c)
                  ("</Code>\n") chSub chRest w3 r3⟩
                · intro k
                  have hset := examineCountFor_set_false cats i c hget hek k
                  have hw1 := w1 k
                  have hr1 := r1 k
                  rw [catCount_cons_cat, catCount_append, catCount_append,
                    catCount_append, catCount_codesInCat k c.catid codes 0]
                  have hraw : catCount k [Chunk.raw ("</Code>\n")] = 0 := rfl
                  rw [hraw]
                  omega
                · have hset := examineCount_set_false cats i c hget hek
                  omega
          · rw [if_neg hcond] at h
            cases hrest : forF codes f cid (i + 1) td cats with
            | none => rw [hrest] at h; simp at h
            | some q =>
              obtain ⟨chRest, catsB⟩ := q
              rw [hrest] at h
              dsimp only at h
              simp only [Option.some.injEq, Prod.mk.injEq] at h
              obtain ⟨hch, hcats⟩ := h
              subst hch
              subst hcats
              exact ihF cid (i + 1) td cats chRest catsB hrest

theorem wfMono (codes : List XCode) : ∀ (f1 : Nat),
    (∀ (f2 counter : Nat) (unf : Bool) (cid : Nat) (cats : List XCat)
        (r : List Chunk × List XCat),
      f1 ≤ f2 → whileF codes f1 counter unf cid cats = some r →
      whileF codes f2 counter unf cid cats = some r) ∧
    (∀ (f2 cid i todo : Nat) (cats : List XCat)
        (r : List Chunk × List XCat),
      f1 ≤ f2 → forF codes f1 cid i todo cats = some r →
      forF codes f2 cid i todo cats = some r) := by
  intro f1
  induction f1 with
  | zero =>
    constructor
    · intro f2 counter unf cid cats r _ h
      simp [whileF] at h
    · intro f2 cid i todo cats r _ h
      simp [forF] at h
  | succ f ih =>
    obtain ⟨ihW, ihF⟩ := ih
    constructor
    · intro f2 counter unf cid cats r hle h
      cases f2 with
      | zero => omega
      | succ g =>
        have hfg : f ≤ g := by omega
        simp only [whileF] at h ⊢
        by_cases hc : (unf && decide (counter < 5000)) = true
        · rw [if_pos hc] at h ⊢
          cases hf : forF codes f cid 0 cats.length cats with
          | none => rw [hf] at h; simp at h
          | some p =>
            obtain ⟨ch1, catsA⟩ := p
            rw [hf] at h
            dsimp only at h
            rw [ihF g cid 0 cats.length cats (ch1, catsA) hfg hf]
            dsimp only
            cases hw : whileF codes f (counter + 1)
                (catsA.any (fun c => c.examine)) cid catsA with
            | none => rw [hw] at h; simp at h
            | some q =>
              rw [hw] at h
              rw [ihW g (counter + 1) (catsA.any (fun c => c.examine)) cid
                catsA q hfg hw]
              exact h
        · rw [if_neg hc] at h ⊢
          exact h
    · intro f2 cid i todo cats r hle h
      cases f2 with
      | zero => omega
      | succ g =>
        have hfg : f ≤ g := by omega
        cases todo with
        | zero =>
          simp only [forF] at h ⊢
          exact h
        | succ td =>
          simp only [forF] at h ⊢
          cases hget : cats.get? i with
          | none =>
            rw [hget] at h
            exact h
          | some c =>
            rw [hget] at h
            dsimp only at h ⊢
            by_cases hcond : (c.examine && c.supercatid == some cid) = true
            · rw [if_pos hcond] at h ⊢
              cases hw : whileF codes f 0 true c.catid
                  (cats.set i { c with examine := false }) with
              | none => rw [hw] at h; simp at h
              | some p =>
                obtain ⟨chSub, catsA⟩ := p
                rw [hw] at h
                dsimp only at h
                rw [ihW g 0 true c.catid
                  (cats.set i { c with examine := false }) (chSub, catsA)
                  hfg hw]
                dsimp only
                cases hrest : forF codes f cid (i + 1) td catsA with
                | none => rw [hrest] at h; simp at h
                | some q =>
                  rw [hrest] at h
                  rw [ihF g cid (i + 1) td catsA q hfg hrest]
                  exact h
            · rw [if_neg hcond] at h ⊢
              cases hrest : forF codes f cid (i + 1) td cats with
              | none => rw [hrest] at h; simp at h
              | some q =>
                rw [hrest] at h
                rw [ihF g cid (i + 1) td cats q hfg hrest]
                exact h

theorem wfSuff (codes : List XCode) : ∀ (tc : Nat),
    (∀ (cats : List XCat) (cid counter : Nat) (unf : Bool),
      examineCount cats ≤ tc →
      ∃ (fl : Nat) (r : List Chunk × List XCat),
        whileF codes fl counter unf cid cats = some r) ∧
    (∀ (cats : List XCat) (cid i todo : Nat),
      examineCount cats ≤ tc →
      ∃ (fl : Nat) (r : List Chunk × List XCat),
        forF codes fl cid i todo cats = some r) := by
  intro tc
  induction tc using Nat.strong_induction_on with
  | _ tc ih =>
    have hFor : ∀ (todo : Nat) (cats : List XCat) (cid i : Nat),
        examineCount cats ≤ tc →
        ∃ (fl : Nat) (r : List Chunk × List XCat),
          forF codes fl cid i todo cats = some r := by
      intro todo
      induction todo with
      | zero =>
        intro cats cid i _
        exact ⟨1, ([], cats), by simp only [forF]⟩
      | succ td ihT =>
        intro cats cid i hec
        cases hget : cats.get? i with
        | none =>
          refine ⟨1, ([], cats), ?_⟩
          simp only [forF]
          rw [hget]
        | some c =>
          by_cases hcond : (c.examine && c.supercatid == some cid) = true
          · have hek : c.examine = true := by
              have hx := hcond
              rw [Bool.and_eq_true] at hx
              exact hx.1
            have hdec := examineCount_set_false cats i c hget hek
            have htc1 :
                examineCount (cats.set i { c with examine := false }) < tc := by
              omega
            obtain ⟨sufW, _⟩ := ih _ htc1
            obtain ⟨f1, r1, hw1⟩ := sufW
              (cats.set i { c with examine := false }) c.catid 0 true
              (Nat.le_refl _)
            obtain ⟨chSub, catsA⟩ := r1
            have hinv := (wfInv codes f1).1 0 true c.catid
              (cats.set i { c with examine := false }) chSub catsA hw1
            have hecA : examineCount catsA ≤ tc := by
              have := hinv.2.1
              omega
            obtain ⟨f2, r2, hr2⟩ := ihT catsA cid (i + 1) hecA
            obtain ⟨chRest, catsB⟩ := r2
            refine ⟨max f1 f2 + 1, (Chunk.cat c.catid (catHeaderXml c) ::
              (chSub ++ codesInCatChunks codes c.catid 0 ++
                [Chunk.raw ("</Code>\n")] ++ chRest), catsB), ?_⟩
            have hw1m := (wfMono codes f1).1 (max f1 f2) 0 true c.catid
              (cats.set i { c with examine := false }) (chSub, catsA)
              (Nat.le_max_left _ _) hw1
            have hr2m := (wfMono codes f2).2 (max f1 f2) cid (i + 1) td catsA
              (chRest, catsB) (Nat.le_max_right _ _) hr2
            simp only [forF]
            rw [hget]
            dsimp only
            rw [if_pos hcond, hw1m]
            dsimp only
            rw [hr2m]
          · obtain ⟨f2, r2, hr2⟩ := ihT cats cid (i + 1) hec
            obtain ⟨chRest, catsB⟩ := r2
            refine ⟨f2 + 1, (chRest, catsB), ?_⟩
            simp only [forF]
            rw [hget]
            dsimp only
            rw [if_neg hcond, hr2]
    have hWhile : ∀ (n counter : Nat), 5000 - counter ≤ n →
        ∀ (cats : List XCat) (cid : Nat) (unf : Bool),
        examineCount cats ≤ tc →
        ∃ (fl : Nat) (r : List Chunk × List XCat),
          whileF codes fl counter unf cid cats = some r := by
      intro n
      induction n with
      | zero =>
        intro counter hcn cats cid unf _
        refine ⟨1, ([], cats), ?_⟩
        simp only [whileF]
        have hfalse : ¬ ((unf && decide (counter < 5000)) = true) := by
          simp only [Bool.and_eq_true, decide_eq_true_eq]
          intro hx
          omega
        rw [if_neg hfalse]
      | succ n2 ihN =>
        intro counter hcn cats cid unf hec
        by_cases hcond : (unf && decide (counter < 5000)) = true
        · obtain ⟨f1, r1, hf1⟩ := hFor cats.length cats cid 0 hec
          obtain ⟨ch1, catsA⟩ := r1
          have hinv := (wfInv codes f1).2 cid 0 cats.length cats ch1 catsA hf1
          have hecA : examineCount catsA ≤ tc := by
            have := hinv.2.1
            omega
          have hcnt : counter < 5000 := by
            have hx := hcond
            rw [Bool.and_eq_true] at hx
            exact of_decide_eq_true hx.2
          obtain ⟨f2, r2, hf2⟩ := ihN (counter + 1) (by omega) catsA cid
            (catsA.any (fun c => c.examine)) hecA
          obtain ⟨ch2, catsB⟩ := r2
          refine ⟨max f1 f2 + 1, (ch1 ++ ch2, catsB), ?_⟩
          have h1m := (wfMono codes f1).2 (max f1 f2) cid 0 cats.length cats
            (ch1, catsA) (Nat.le_max_left _ _) hf1
          have h2m := (wfMono codes f2).1 (max f1 f2) (counter + 1)
            (catsA.any (fun c => c.examine)) cid catsA (ch2, catsB)
            (Nat.le_max_right _ _) hf2
          simp only [whileF]
          rw [if_pos hcond, h1m]
          dsimp only
          rw [h2m]
        · refine ⟨1, ([], cats), ?_⟩
          simp only [whileF]
          rw [if_neg hcond]
    constructor
    · intro cats cid counter unf hec
      exact hWhile (5000 - counter) counter (Nat.le_refl _) cats cid unf hec
    · intro cats cid i todo hec
      exact hFor todo cats cid i hec

theorem addSubInv (codes : List XCode) (fuel cid : Nat) (cats : List XCat)
    (ch : List Chunk) (catsF : List XCat)
    (h : add_sub_categories codes fuel cid cats = some (ch, catsF)) :
    (∀ k, catCount k ch + examineCountFor k catsF ≤ examineCountFor k cats) ∧
    examineCount catsF ≤ examineCount cats ∧
    chunkInv codes ch := by
  cases fuel with
  | zero => simp [add_sub_categories] at h
  | succ fu =>
    simp only [add_sub_categories] at h
    exact (wfInv codes fu).1 0 true cid cats ch catsF h

theorem addSubMono (codes : List XCode) (f1 f2 cid : Nat) (cats : List XCat)
    (r : List Chunk × List XCat) (hle : f1 ≤ f2)
    (h : add_sub_categories codes f1 cid cats = some r) :
    add_sub_categories codes f2 cid cats = some r := by
  cases f1 with
  | zero => simp [add_sub_categories] at h
  | succ a =>
    cases f2 with
    | zero => omega
    | succ b =>
      simp only [add_sub_categories] at h ⊢
      exact (wfMono codes a).1 b 0 true cid cats r (by omega) h

theorem topInv (codes : List XCode) (fuel : Nat) :
    ∀ (todo i : Nat) (cats : List XCat) (ch : List Chunk)
      (catsF : List XCat),
      topForF codes fuel i todo cats = some (ch, catsF) →
      (∀ k, catCount k ch + examineCountFor k catsF ≤ examineCountFor k cats) ∧
      examineCount catsF ≤ examineCount cats ∧
      chunkInv codes ch := by
  intro todo
  induction todo with
  | zero =>
    intro i cats ch catsF h
    simp only [topForF, Option.some.injEq, Prod.mk.injEq] at h
    obtain ⟨hch, hcats⟩ := h
    subst hch
    subst hcats
    refine ⟨?_, Nat.le_refl _, chunkInv_nil codes⟩
    intro k
    rw [catCount_nil]
    omega
  | succ td ihT =>
    intro i cats ch catsF h
    simp only [topForF] at h
    cases hget : cats.get? i with
    | none =>
      rw [hget] at h
      simp only [Option.some.injEq, Prod.mk.injEq] at h
      obtain ⟨hch, hcats⟩ := h
      subst hch
      subst hcats
      refine ⟨?_, Nat.le_refl _, chunkInv_nil codes⟩
      intro k
      rw [catCount_nil]
      omega
    | some ca =>
      rw [hget] at h
      dsimp only at h
      by_cases hcond : (ca.supercatid == none && ca.examine) = true
      · rw [if_pos hcond] at h
        have hek : ca.examine = true := by
          have hx := hcond
          rw [Bool.and_eq_true] at hx
          exact hx.2
        cases hadd : add_sub_categories codes fuel ca.catid
            (cats.set i { ca with examine := false }) with
        | none => rw [hadd] at h; simp at h
        | some p =>
          obtain ⟨chSub, catsA⟩ := p
          rw [hadd] at h
          dsimp only at h
          cases hrest : topForF codes fuel (i + 1) td catsA with
          | none => rw [hrest] at h; simp at h
          | some q =>
            obtain ⟨chRest, catsB⟩ := q
            rw [hrest] at h
            dsimp only at h
            simp only [Option.some.injEq, Prod.mk.injEq] at h
            obtain ⟨hch, hcats⟩ := h
            subst hch
            subst hcats
            obtain ⟨w1, w2, w3⟩ := addSubInv codes fuel ca.catid
              (cats.set i { ca with examine := false }) chSub catsA hadd
            obtain ⟨r1, r2, r3⟩ := ihT (i + 1) catsA chRest catsB hrest
            refine ⟨?_, ?_, chunkInv_block_top codes ca.catid
              (catHeaderXml ca) ("</Code>\n") chSub chRest w3 r3⟩
            · intro k
              have hset := examineCountFor_set_false cats i ca hget hek k
              have hw1 := w1 k
              have hr1 := r1 k
              rw [catCount_cons_cat, catCount_append, catCount_append,
                catCount_append, catCount_codesInCat k ca.catid codes 0]
              have hraw : catCount k [Chunk.raw ("</Code>\n")] = 0 := rfl
              rw [hraw]
              omega
            · have hset := examineCount_set_false cats i ca hget hek
              omega
      · rw [if_neg hcond] at h
        cases hrest : topForF codes fuel (i + 1) td cats with
        | none => rw [hrest] at h; simp at h
        | some q =>
          obtain ⟨chRest, catsB⟩ := q
          rw [hrest] at h
          dsimp only at h
          simp only [Option.some.injEq, Prod.mk.injEq] at h
          obtain ⟨hch, hcats⟩ := h
          subst hch
          subst hcats
          exact ihT (i + 1) cats chRest catsB hrest

theorem topMono (codes : List XCode) :
    ∀ (todo f1 f2 i : Nat) (cats : List XCat) (r : List Chunk × List XCat),
      f1 ≤ f2 → topForF codes f1 i todo cats = some r →
      topForF codes f2 i todo cats = some r := by
  intro todo
  induction todo with
  | zero =>
    intro f1 f2 i cats r _ h
    simp only [topForF] at h ⊢
    exact h
  | succ td ihT =>
    intro f1 f2 i cats r hle h
    simp only [topForF] at h ⊢
    cases hget : cats.get? i with
    | none =>
      rw [hget] at h
      exact h
    | some ca =>
      rw [hget] at h
      dsimp only at h ⊢
      by_cases hcond : (ca.supercatid == none && ca.examine) = true
      · rw [if_pos hcond] at h ⊢
        cases hadd : add_sub_categories codes f1 ca.catid
            (cats.set i { ca with examine := false }) with
        | none => rw [hadd] at h; simp at h
        | some p =>
          obtain ⟨chSub, catsA⟩ := p
          rw [hadd] at h
          dsimp only at h
          rw [addSubMono codes f1 f2 ca.catid
            (cats.set i { ca with examine := false }) (chSub, catsA) hle hadd]
          dsimp only
          cases hrest : topForF codes f1 (i + 1) td catsA with
          | none => rw [hrest] at h; simp at h
          | some q =>
            rw [hrest] at h
            rw [ihT f1 f2 (i + 1) catsA q hle hrest]
            exact h
      · rw [if_neg hcond] at h ⊢
        cases hrest : topForF codes f1 (i + 1) td cats with
        | none => rw [hrest] at h; simp at h
        | some q =>
          rw [hrest] at h
          rw [ihT f1 f2 (i + 1) cats q hle hrest]
          exact h

theorem topSuff (codes : List XCode) :
    ∀ (todo : Nat) (cats : List XCat) (i : Nat),
      ∃ (fl : Nat) (r : List Chunk × List XCat),
        topForF codes fl i todo cats = some r := by
  intro todo
  induction todo with
  | zero =>
    intro cats i
    exact ⟨0, ([], cats), by simp only [topForF]⟩
  | succ td ihT =>
    intro cats i
    cases hget : cats.get? i with
    | none =>
      refine ⟨0, ([], cats), ?_⟩
      simp only [topForF]
      rw [hget]
    | some ca =>
      by_cases hcond : (ca.supercatid == none && ca.examine) = true
      · obtain ⟨sufW, _⟩ :=
          wfSuff codes (examineCount (cats.set i { ca with examine := false }))
        obtain ⟨f1, r1, hw1⟩ := sufW
          (cats.set i { ca with examine := false }) ca.catid 0 true
          (Nat.le_refl _)
        obtain ⟨chSub, catsA⟩ := r1
        have hadd : add_sub_categories codes (f1 + 1) ca.catid
            (cats.set i { ca with examine := false }) = some (chSub, catsA) := by
          simp only [add_sub_categories]
          exact hw1
        obtain ⟨f2, r2, hr2⟩ := ihT catsA (i + 1)
        obtain ⟨chRest, catsB⟩ := r2
        refine ⟨max (f1 + 1) f2, (Chunk.cat ca.catid (catHeaderXml ca) ::
          (codesInCatChunks codes ca.catid 0 ++ chSub ++
            [Chunk.raw ("</Code>\n")] ++ chRest), catsB), ?_⟩
        have haddm := addSubMono codes (f1 + 1) (max (f1 + 1) f2) ca.catid
          (cats.set i { ca with examine := false }) (chSub, catsA)
          (Nat.le_max_left _ _) hadd
        have htopm := topMono codes td f2 (max (f1 + 1) f2) (i + 1) catsA
          (chRest, catsB) (Nat.le_max_right _ _) hr2
        simp only [topForF]
        rw [hget]
        dsimp only
        rw [if_pos hcond, haddm]
        dsimp only
        rw [htopm]
      · obtain ⟨f2, r2, hr2⟩ := ihT cats (i + 1)
        obtain ⟨chRest, catsB⟩ := r2
        refine ⟨f2, (chRest, catsB), ?_⟩
        simp only [topForF]
        rw [hget]
        dsimp only
        rw [if_neg hcond, hr2]

theorem ecf_le_one : ∀ (cats : List XCat),
    (cats.map (fun c => c.catid)).Nodup → ∀ k, examineCountFor k cats ≤ 1 := by
  intro cats
  induction cats with
  | nil =>
    intro _ k
    simp [examineCountFor]
  | cons c t iht =>
    intro hnd k
    rw [List.map_cons, List.nodup_cons] at hnd
    unfold examineCountFor
    rw [List.filter_cons]
    by_cases hc : (c.catid == k && c.examine) = true
    · rw [if_pos hc]
      have hck : c.catid = k := by
        have hx := hc
        rw [Bool.and_eq_true] at hx
        exact eq_of_beq hx.1
      have hfil : t.filter (fun cc => cc.catid == k && cc.examine) = [] := by
        apply filter_eq_nil_of_any_false
        rw [List.any_eq_false]
        intro a ha hp
        rw [Bool.and_eq_true] at hp
        have hak : a.catid = k := eq_of_beq hp.1
        exact hnd.1 (by
          rw [hck, ← hak]
          exact List.mem_map_of_mem (fun c => c.catid) ha)
      rw [hfil]
      simp
    · rw [if_neg hc]
      exact iht hnd.2 k

/-- C9: assuming the category ids are pairwise distinct (they are the
`catid` primary keys of the `code_cat` table), the codebook export
terminates — some finite fuel makes the 5000-capped while loops of
`add_sub_categories` and the top-level walk of `codebook_xml` return — and
the produced chunk stream emits each category element at most once and
each code element at most once.  (At most, not exactly: a category with a
dangling parent id is emitted zero times, see the counterexample.) -/
theorem c9_codebook_terminates_and_emits_at_most_once
    (codes : List XCode) (cats : List XCat)
    (hnd : (cats.map (fun c => c.catid)).Nodup) :
    ∃ (fl : Nat) (ch : List Chunk) (catsF : List XCat),
      codebook_xml codes fl cats = some (ch, catsF) ∧
      (∀ k, catCount k ch ≤ 1) ∧
      (∀ (j : Nat) (co : XCode), codes.get? j = some co →
        codeCount j ch ≤ 1) := by
  by_cases hemp : codes.isEmpty = true
  · refine ⟨0, [], cats, ?_, ?_, ?_⟩
    · simp [codebook_xml, hemp]
    · intro k
      rw [catCount_nil]
      omega
    · intro j co _
      rw [codeCount_nil]
      omega
  · obtain ⟨fl, r, htop⟩ := topSuff codes cats.length cats 0
    obtain ⟨chTop, catsF⟩ := r
    obtain ⟨t1, _, t3⟩ := topInv codes fl cats.length 0 cats chTop catsF htop
    refine ⟨fl, Chunk.raw ("<CodeBook>\n") :: Chunk.raw ("<Codes>\n") ::
      (unlinkedChunks codes 0 ++ chTop ++
        [Chunk.raw ("</Codes>\n"), Chunk.raw ("</CodeBook>\n")]),
      catsF, ?_, ?_, ?_⟩
    · simp only [codebook_xml]
      rw [if_neg hemp, htop]
    · intro k
      rw [catCount_cons_raw, catCount_cons_raw, catCount_append,
        catCount_append, catCount_unlinked]
      have hb : catCount k
          [Chunk.raw ("</Codes>\n"), Chunk.raw ("</CodeBook>\n")] = 0 := rfl
      rw [hb]
      have h1 := t1 k
      have h2 := ecf_le_one cats hnd k
      omega
    · intro j co hget
      rw [codeCount_cons_raw, codeCount_cons_raw, codeCount_append,
        codeCount_append]
      have hb : codeCount j
          [Chunk.raw ("</Codes>\n"), Chunk.raw ("</CodeBook>\n")] = 0 := rfl
      rw [hb]
      have hun := codeCount_unlinked codes 0 j co hget
      rw [Nat.zero_add] at hun
      obtain ⟨ci1, ci2⟩ := t3 j co hget
      cases hcat : co.catid with
      | none =>
        have hz := ci1 hcat
        have hbeq : (co.catid == none) = true := by rw [hcat]; rfl
        rw [hbeq] at hun
        rw [hun, hz]
        simp
      | some k =>
        have hle := ci2 k hcat
        have hbeq : (co.catid == none) = false := by rw [hcat]; rfl
        rw [hbeq] at hun
        simp only [Bool.false_eq_true, if_false] at hun
        rw [hun]
        have h1 := t1 k
        have h2 := ecf_le_one cats hnd k
        omega

/-- C9 counterexample to "exactly once": the single category of `c9Cats`
has a dangling parent id (99 names no category), so the top-level walk
skips it and no while-loop pass ever reaches it — its element is emitted
zero times, not once. -/
theorem c9_dangling_parent_emitted_zero_times :
    (codebook_xml c9Codes 1 c9Cats).map
      (fun r => catCount 1 r.1) = some 0 := rfl

theorem c9_witness :
    ∃ (fl : Nat) (ch : List Chunk) (catsF : List XCat),
      codebook_xml c9wCodes fl c9wCats = some (ch, catsF) ∧
      (∀ k, catCount k ch ≤ 1) ∧
      (∀ (j : Nat) (co : XCode), c9wCodes.get? j = some co →
        codeCount j ch ≤ 1) :=
  c9_codebook_terminates_and_emits_at_most_once c9wCodes c9wCats (by decide)

end Refi
